import Mathlib

set_option autoImplicit false

/-!
Verification development for the brainquant3d chunked volumetric processing
pipeline.  The definitions below are shallow embeddings of the Python sources:

* clearmap3/utils/chunking.py   (ranges_from_sizes, add_overlap, chunk_ranges)
* bq3d/stack_processing/cell_detection.py  (process_flow, join_points, jsonify_points)
* bq3d/stack_processing/parallelization.py (processSubStack)

Python integers are modelled as ℤ.  The two floating-point quantities inside
chunk_ranges (the voxel budget `chunk_size = size * 1.28e8 / itemsize` and the
cube root `c = (chunk_size / prod(aspect_ratio)) ** (1/3)`) are taken as ℚ
parameters: every value a floating-point execution can produce is a rational
number, so theorems quantifying over these parameters cover all executions.
Python runtime exceptions are modelled as `Except.error` with a message naming
the exception the interpreter would raise.
-/

/-- A half-open per-axis range, written `[start, stop)` in the spec. -/
abbrev Rng : Type := ℤ × ℤ

/-- One chunk: a list of per-axis ranges (three axes in a 3-D volume). -/
abbrev Chunk : Type := List Rng

/-- Untyped nested Python value, used for the return value of chunk_ranges:
its two return statements produce differently nested list structures, which a
fixed typed representation could not hold at the same type. -/
inductive Py where
  | int : ℤ → Py
  | list : List Py → Py

/-- Length of a Python list value (0 for an int). -/
def pyLen : Py → ℕ
  | .int _ => 0
  | .list l => l.length

/-- Embedding of ranges_from_sizes (chunking.py lines 22-38) as its recursive
worker: turns a list of chunk sizes into consecutive half-open ranges,
threading the running offset. -/
def rangesFromSizesGo (offset : ℤ) : List ℤ → List Rng
  | [] => []
  | r :: rest => (offset, offset + r) :: rangesFromSizesGo (offset + r) rest

/-- Embedding of ranges_from_sizes: ranges as (start, stop) given chunk sizes,
starting at offset 0. -/
def ranges_from_sizes (sizes : List ℤ) : List Rng :=
  rangesFromSizesGo 0 sizes

/-- Per-chunk body of add_overlap (chunking.py lines 41-58): expand each axis
range by `overlap`, clamping to `[0, shape[ax]]`.  Python indexes `shape[ax]`,
so an axis index beyond the shape raises IndexError, modelled as an error. -/
def addOverlapChunk (overlap : ℤ) (shape : List ℤ) : Chunk → ℕ → Except String Chunk
  | [], _ => .ok []
  | (lo, hi) :: rest, ax =>
    match shape.get? ax with
    | none => .error "IndexError: tuple index out of range"
    | some s => do
      let tail ← addOverlapChunk overlap shape rest (ax + 1)
      .ok ((max (lo - overlap) 0, min (hi + overlap) s) :: tail)

/-- Embedding of add_overlap: adds overlap to each range of each chunk without
extending past the bounds of the image. -/
def add_overlap : List Chunk → ℤ → List ℤ → Except String (List Chunk)
  | [], _, _ => .ok []
  | ch :: rest, overlap, shape => do
    let c ← addOverlapChunk overlap shape ch 0
    let tail ← add_overlap rest overlap shape
    .ok (c :: tail)

/-- Per-axis chunk-size computation of chunk_ranges (chunking.py lines
126-140), given the axis length, the computed max chunk size, and the minimum
size for this axis.  Python arithmetic is floor-convention (`Int.fmod`,
`Int.fdiv`); `math.ceil(axis / max_size)` is the rational ceiling.  Two Python
runtime errors are modelled: division or modulo by zero raises
ZeroDivisionError, and the even-split branch evaluates
`[max_size] * (axis / max_size)` where `axis / max_size` is a float under true
division, so multiplying a list by it raises TypeError unconditionally. -/
def splitAxis (axis max_size min_size : ℤ) : Except String (List ℤ) :=
  if max_size = 0 then
    .error "ZeroDivisionError: integer division or modulo by zero"
  else if axis.fmod max_size ≠ 0 then
    let n : ℤ := ⌈(axis : ℚ) / (max_size : ℚ)⌉
    if n = 0 then
      .error "ZeroDivisionError: integer division or modulo by zero"
    else
      let q : ℤ := axis.fdiv n
      if q < min_size then
        .error "ValueError: cannot chunk along axis. min_size too large or size to small"
      else
        let sizes := List.replicate (n - 1).toNat q
        .ok (sizes ++ [axis - sizes.sum])
  else
    .error "TypeError: cannot multiply sequence by non-int of type float"

/-- Per-axis maximum unique chunk size computed by chunk_ranges:
`math.floor(c * aspect_ratio[a]) - 2 * overlap`. -/
def maxSize (c : ℚ) (ar : ℚ) (overlap : ℤ) : ℤ :=
  ⌊c * ar⌋ - 2 * overlap

/-- The per-axis loop of chunk_ranges (lines 121-140): for each axis, compute
max_size, check it against min_sizes[a], and split the axis into chunk ranges.
Indexing min_sizes / aspect_ratio out of bounds raises IndexError. -/
def chunkAxes (c : ℚ) (overlap : ℤ) (min_sizes : List ℤ) (ar : List ℚ) :
    List ℤ → ℕ → Except String (List (List Rng))
  | [], _ => .ok []
  | axis :: rest, a =>
    match min_sizes.get? a, ar.get? a with
    | some m, some r =>
      if m > maxSize c r overlap then
        .error "ValueError: min_size along axis too large. results in substack larger than max chunk."
      else do
        let sizes ← splitAxis axis (maxSize c r overlap) m
        let tail ← chunkAxes c overlap min_sizes ar rest (a + 1)
        .ok (ranges_from_sizes sizes :: tail)
    | _, _ => .error "IndexError: tuple index out of range"

/-- Cartesian product of the per-axis range lists, in itertools.product order
(last axis fastest). -/
def cartProd : List (List Rng) → List Chunk
  | [] => [[]]
  | xs :: rest => xs.flatMap fun x => (cartProd rest).map (x :: ·)

/-- Conversion of a range to its Python list form [start, stop]. -/
def rngToPy (r : Rng) : Py := .list [.int r.1, .int r.2]

/-- Conversion of a chunk (list of per-axis ranges) to its Python form. -/
def chunkToPy (ch : Chunk) : Py := .list (ch.map rngToPy)

/-- Conversion of a list of chunks to its Python form. -/
def chunksToPy (cs : List Chunk) : Py := .list (cs.map chunkToPy)

/-- Embedding of chunk_ranges (chunking.py lines 81-147).  `shape` is
`source.shape`, `chunk_size` the voxel budget `size * 1.28e8 / itemsize`, and
`c` the float `(chunk_size / prod(aspect_ratio)) ** (1/3)`; the latter two are
ℚ parameters standing for the floats the code computes (see module comment).
The returned pair is what the caller observes from
`unique_chunks, overlap_chunks = chunk_ranges(...)`: the partition branch
returns the 2-tuple `(unique_chunks, overlap_chunks)`, while the no-split
branch returns the 2-element list `[[[0, ax] for ax in source.shape]] * 2`,
whose unpacking binds each name to `[[0, s0], [0, s1], [0, s2]]` itself.  The
validation checks consume only shape metadata: the function has no voxel-data
parameter at all. -/
def chunk_ranges (shape : List ℤ) (overlap : ℤ) (min_sizes : List ℤ)
    (aspect_ratio : List ℚ) (chunk_size : ℚ) (c : ℚ) : Except String (Py × Py) :=
  if shape.length ≠ 3 then
    .error "ValueError: source must be 3 dimensional"
  else if aspect_ratio.length ≠ 3 then
    .error "ValueError: aspect_ratio must have same number of dimensions as source"
  else if min_sizes.any (fun s => decide (overlap > s)) then
    .error "ValueError: overnlap cannot be smaller thn any value in min_size"
  else if chunk_size < ((shape.prod : ℤ) : ℚ) then do
    let idx ← chunkAxes c overlap min_sizes aspect_ratio shape 0
    let uniq := cartProd idx
    let ovl ← add_overlap uniq overlap shape
    .ok (chunksToPy uniq, chunksToPy ovl)
  else
    let whole := Py.list (shape.map fun s => Py.list [.int 0, .int s])
    .ok (whole, whole)

/-!
Embedding of join_points (bq3d/stack_processing/cell_detection.py lines
134-186).  One chunk result, as produced by label_props and returned by
processSubStack, is a Python list with one entry per requested property: the
first entry is the list of per-region centroid coordinate tuples, the
remaining entries are lists of per-region scalar property values (coordinates
are modelled as ℤ: the comparisons and additions join_points performs are
exact on the values the model quantifies over).  A chunk processed with an
empty output_properties list returns the empty list.  numpy behaviour is
modelled where join_points depends on it: np.array of a list of equal-length
tuples is an n x w matrix and np.concatenate demands matching dimensions,
raising ValueError otherwise; out-of-range list indexing raises IndexError.
-/

/-- A single Python value in a label_props property column: a scalar, or a
coordinate tuple. -/
inductive PVal where
  | int : ℤ → PVal
  | tup : List ℤ → PVal
deriving DecidableEq

/-- One property column: one value per detected region. -/
abbrev PCol : Type := List PVal

/-- One chunk result: the list of property columns returned by label_props
(empty when no properties were requested). -/
abbrev ChunkRes : Type := List PCol

/-- Whether a value is a scalar. -/
def isIntV : PVal → Bool
  | .int _ => true
  | .tup _ => false

/-- The underlying tuple of a value (junk singleton for a scalar; only used
where values are known to be tuples). -/
def tupVal : PVal → List ℤ
  | .int z => [z]
  | .tup l => l

/-- The underlying scalar of a value (junk for a tuple). -/
def intVal : PVal → ℤ
  | .int z => z
  | .tup _ => 0

/-- Modelling of `np.array(all_coords[i])` as an n x w coordinate matrix: it
is a rectangular 2-D array exactly when every entry is a tuple and all tuples
share one width; otherwise numpy builds a ragged object array on which the
subsequent arithmetic fails, modelled as `none` (turned into an error at the
point of use). -/
def coordsMat? (col : PCol) : Option (List (List ℤ)) :=
  if col.all (fun v => !isIntV v)
      && (col.map tupVal).all (fun r => r.length == ((col.map tupVal).headD []).length) then
    some (col.map tupVal)
  else
    none

/-- Modelling of `np.array(all_props[i]).T` followed by the axis-1
concatenation with the coordinates: the transpose is a usable n x p matrix of
rows exactly when there is at least one property column, every entry is a
scalar, and every column has length n.  In every other case (no extra
property columns giving a 0-dimensional (0,)-shaped array, a ragged object
array, tuple-valued entries giving a 3-D array, or a wrong column length) the
concatenation raises ValueError, modelled as `none` at the point of use. -/
def propsRows? (cols : List PCol) (n : ℕ) : Option (List (List ℤ)) :=
  if !cols.isEmpty && cols.all (fun c => c.all isIntV && (c.length == n)) then
    some ((List.range n).map fun j => cols.map fun c => intVal (c.getD j (.int 0)))
  else
    none

/-- The per-row mask of join_points:
`np.all(np.logical_and(coords >= min_coord, coords < max_coord), axis=1)` for
one globalized coordinate row against one unique range (start inclusive, stop
exclusive on every axis). -/
def maskRow (u : Chunk) (g : List ℤ) : Bool :=
  (g.zip u).all fun p => decide (p.2.1 ≤ p.1 ∧ p.1 < p.2.2)

/-- Loop state of join_points: `filtered_data`, either still None or the
accumulated data matrix together with its row width (numpy concatenation
checks that widths agree). -/
abbrev JoinAcc : Type := Option (ℕ × List (List ℤ))

/-- One iteration of the `for i in range(nchunks)` loop of join_points.  Note
the faithful misalignment: `ne` is the list of chunk results that survived the
`len(r) > 0` filter, yet it is indexed by the chunk index `i`, while
unique_ranges and overlap_ranges are indexed by `i` directly. -/
def joinStep (ne : List ChunkRes) (uniq ovl : List Chunk) (i : ℕ) (acc : JoinAcc) :
    Except String JoinAcc :=
  match ne.get? i with
  | none => .error "IndexError: list index out of range"
  | some r =>
    match coordsMat? (r.headD []) with
    | none => .error "ValueError: ragged coordinate array"
    | some rows =>
      if rows.length = 0 then .ok acc
      else
        match uniq.get? i, ovl.get? i with
        | some u, some o =>
          let w := (rows.headD []).length
          if u.length ≠ w ∨ o.length ≠ w then
            .error "ValueError: operands could not be broadcast together"
          else
            let offs := o.map Prod.fst
            let rowsG := rows.map fun g => g.zipWith (· + ·) offs
            match propsRows? r.tail rows.length with
            | none => .error "ValueError: all the input arrays must have the same number of dimensions"
            | some prows =>
              let dataRows := (rowsG.zip prows).filterMap fun p =>
                if maskRow u p.1 then some (p.1 ++ p.2) else none
              let wd := w + r.tail.length
              match acc with
              | none => .ok (some (wd, dataRows))
              | some (w0, rows0) =>
                if w0 ≠ wd then .error "ValueError: concatenate axis dimension mismatch"
                else .ok (some (w0, rows0 ++ dataRows))
        | _, _ => .error "IndexError: list index out of range"

/-- The `for i in range(nchunks)` loop of join_points over a list of chunk
indices, threading the accumulator and propagating the first exception. -/
def joinIter (ne : List ChunkRes) (uniq ovl : List Chunk) :
    List ℕ → JoinAcc → Except String JoinAcc
  | [], acc => .ok acc
  | i :: rest, acc =>
    match joinStep ne uniq ovl i acc with
    | .error e => .error e
    | .ok a => joinIter ne uniq ovl rest a

/-- Return value of join_points: either the literal `np.zeros((0, 3))` (when
`filtered_data` stayed None), or `filtered_data.T.tolist()`, a list of columns
(coordinate axes first, then the scalar properties). -/
inductive JoinOut where
  | zeros03 : JoinOut
  | cols : List (List ℤ) → JoinOut
deriving DecidableEq

/-- Embedding of join_points: collects the non-empty chunk results, loops over
all chunk indices converting chunk-local coordinates to absolute ones and
masking against the unique ranges, and returns either an explicit 0 x 3 empty
result or the transposed data. -/
def join_points (results : List ChunkRes) (unique_ranges overlap_ranges : List Chunk) :
    Except String JoinOut := do
  let ne := results.filter fun r => !r.isEmpty
  let acc ← joinIter ne unique_ranges overlap_ranges (List.range results.length) none
  match acc with
  | none => .ok .zeros03
  | some (w, rows) => .ok (.cols ((List.range w).map fun j => rows.map fun r => r.getD j 0))

/-- Coordinate rows carried by a join_points result: the first three returned
columns, read back as one row per detection (empty for the 0 x 3 result or an
exception). -/
def joinCoordRows : Except String JoinOut → List (List ℤ)
  | .ok (.cols l) =>
      (List.range ((l.headD []).length)).map fun j => (l.take 3).map fun col => col.getD j 0
  | .ok .zeros03 => []
  | .error _ => []

/-- Globalized coordinates of one chunk result: each centroid tuple plus the
per-axis starts of the overlap range of that chunk (the conversion join_points
performs before masking). -/
def globCoords (o : Chunk) (r : ChunkRes) : List (List ℤ) :=
  ((r.headD []).map tupVal).map fun g => g.zipWith (· + ·) (o.map Prod.fst)

/-- Whether a value is a 3-axis coordinate tuple. -/
def isTup3 : PVal → Bool
  | .tup l => l.length == 3
  | .int _ => false

/-- Shape discipline of one well-formed chunk result together with its two
ranges: the result is non-empty with exactly p scalar property columns next to
the coordinate column, every coordinate is a 3-tuple, every property column is
scalar with one entry per region, and both ranges have 3 axes.  This is the
shape label_props output has whenever centroid plus p further properties are
requested. -/
def chunkWf (r : ChunkRes) (u o : Chunk) (p : ℕ) : Prop :=
  r ≠ [] ∧ r.tail.length = p ∧ (r.headD []).all isTup3 = true ∧
  (r.tail.all fun col => col.all isIntV && (col.length == (r.headD []).length)) = true ∧
  u.length = 3 ∧ o.length = 3

instance (r : ChunkRes) (u o : Chunk) (p : ℕ) : Decidable (chunkWf r u o p) := by
  unfold chunkWf
  infer_instance

/-- The scalar property rows of one chunk result, as the transpose join_points
computes. -/
def propsRowsOf (r : ChunkRes) : List (List ℤ) :=
  (List.range ((r.headD []).map tupVal).length).map fun j =>
    r.tail.map fun c => intVal (c.getD j (.int 0))

/-- The data rows one chunk contributes to `filtered_data`: globalized
coordinates joined with the property rows, kept when the mask against the
unique range holds. -/
def chunkDataRows (r : ChunkRes) (u o : Chunk) : List (List ℤ) :=
  ((globCoords o r).zip (propsRowsOf r)).filterMap fun pr =>
    if maskRow u pr.1 then some (pr.1 ++ pr.2) else none

/-- The data rows chunk i contributes, indexed over the chunk grid. -/
def chunkDataAt (results : List ChunkRes) (uniq ovl : List Chunk) (i : ℕ) :
    List (List ℤ) :=
  chunkDataRows (results.getD i []) (uniq.getD i []) (ovl.getD i [])

/-- The accumulated data rows after the first k chunks of the join loop. -/
def dataUpTo (results : List ChunkRes) (uniq ovl : List Chunk) (k : ℕ) :
    List (List ℤ) :=
  (List.range k).flatMap (chunkDataAt results uniq ovl)

/-- Loop invariant of join_points under well-formed inputs: `filtered_data`
is still None and nothing has been contributed, or it holds exactly the rows
of the chunks processed so far, all of width 3 + p. -/
def accInv (results : List ChunkRes) (uniq ovl : List Chunk) (p k : ℕ)
    (acc : JoinAcc) : Prop :=
  (acc = none ∧ dataUpTo results uniq ovl k = []) ∨
  acc = some (3 + p, dataUpTo results uniq ovl k)

/-- Effect of one join loop iteration on the accumulator for a well-formed
chunk: skip when the chunk has no detections, start or extend the data rows
otherwise. -/
def accAfter (p : ℕ) (r : ChunkRes) (u o : Chunk) (acc : JoinAcc) : JoinAcc :=
  if ((r.headD []).map tupVal).length = 0 then acc
  else
    match acc with
    | none => some (3 + p, chunkDataRows r u o)
    | some (w, rows0) => some (w, rows0 ++ chunkDataRows r u o)

/-!
Embedding of processSubStack (bq3d/stack_processing/parallelization.py lines
26-98) and process_flow (bq3d/stack_processing/cell_detection.py lines 57-131).
Filesystem effects are modelled explicitly: the filesystem is the list of
existing paths, a path being a list of segments.  Each chunk worker creates a
unique directory under the run-scoped temporary root, copies the memory-mapped
working file and the raw file into it, and runs each filter of the flow with
that directory as its temporary root, so every intermediate the filters create
lives below the chunk directory.  Filters and label_props are external
operators (out of scope per the spec), so each is modelled by its observable
behaviour: whether it raises, and which temporary files it creates.  The
worker pool of process_flow is modelled by its sequential serialization: each
task runs once in argdata order; with processes == 1 this is literally what
the code does, and with a pool the tasks are independent, so the serialized
model captures the collected results and the per-task filesystem effects. -/

/-- A filesystem path, as a list of segments. -/
abbrev FPath : Type := List String

/-- The modelled filesystem: the list of existing files and directories. -/
abbrev FS : Type := List FPath

/-- Modelling of shutil.rmtree(root, ignore_errors=True): removes root and
everything below it; removing what does not exist is not an error. -/
def rmtree (root : FPath) (fs : FS) : FS :=
  fs.filter fun p => !root.isPrefixOf p

/-- Observable behaviour of one filter_image step of the flow: whether it
returns normally, and which temporary files it creates (relative to the chunk
temporary directory it is given as temp_dir_root). -/
structure FilterStep where
  ok : Bool
  files : List FPath
deriving DecidableEq

/-- Observable behaviour of one chunk task: the unique name of its chunk
temporary directory, its filter flow, whether label_props returns normally,
and the chunk result label_props produces. -/
structure SubStackSpec where
  dirName : String
  flow : List FilterStep
  propsOk : Bool
  props : ChunkRes
deriving DecidableEq

/-- The filter loop of processSubStack: runs each filter in order, recording
the files it creates below the chunk directory, stopping at the first filter
that raises. -/
def runFilters (chunkDir : FPath) : List FilterStep → FS → FS × Bool
  | [], fs => (fs, true)
  | f :: rest, fs =>
    let fs' := fs ++ f.files.map (chunkDir ++ ·)
    if f.ok then runFilters chunkDir rest fs' else (fs', false)

/-- Embedding of processSubStack: creates the chunk-scoped temporary
directory under the run root with the working copy and the raw copy inside,
runs the filter flow, measures label properties when output_properties is
non-empty, and removes the chunk directory.  The function has no try/finally:
the rmtree on the chunk directory runs only on the fall-through path, exactly
as in the source. -/
def processSubStack (temp_dir_root : FPath) (spec : SubStackSpec)
    (output_properties : List String) (fs : FS) : FS × Except String ChunkRes :=
  let temp_dir := temp_dir_root ++ [spec.dirName]
  let fs1 := fs ++ [temp_dir, temp_dir ++ ["mmap.tif"], temp_dir ++ ["raw.tif"]]
  let rf := runFilters temp_dir spec.flow fs1
  if !rf.2 then
    (rf.1, .error "OperatorError: a filter raised during chunk processing")
  else if !output_properties.isEmpty && !spec.propsOk then
    (rf.1, .error "OperatorError: label_props raised during chunk processing")
  else
    (rmtree temp_dir rf.1, .ok (if output_properties.isEmpty then [] else spec.props))

/-- Sequential chunk execution (the processes == 1 branch of process_flow):
list comprehension over argdata, stopping at the first raising task.  Also
records the chunk directory names in order of invocation. -/
def runChunksSeq (root : FPath) (props : List String) :
    List SubStackSpec → FS → FS × Except String (List ChunkRes) × List String
  | [], fs => (fs, .ok [], [])
  | s :: rest, fs =>
    let p := processSubStack root s props fs
    match p.2 with
    | .error e => (p.1, .error e, [s.dirName])
    | .ok r =>
      let q := runChunksSeq root props rest p.1
      (q.1, q.2.1.map (r :: ·), s.dirName :: q.2.2)

/-- Serialized model of the pool branch (pool.starmap): every task runs once,
and the first raising task (in argdata order) determines the re-raised
exception. -/
def runChunksPool (root : FPath) (props : List String) :
    List SubStackSpec → FS → FS × Except String (List ChunkRes) × List String
  | [], fs => (fs, .ok [], [])
  | s :: rest, fs =>
    let p := processSubStack root s props fs
    let q := runChunksPool root props rest p.1
    match p.2 with
    | .error e => (q.1, .error e, s.dirName :: q.2.2)
    | .ok v => (q.1, q.2.1.map (v :: ·), s.dirName :: q.2.2)

/-- Python dict assignment on a string-keyed table kept in insertion order:
overwrite the value if the key exists, append otherwise. -/
def upsert (res : List (String × List ℤ)) (k : String) (v : List ℤ) :
    List (String × List ℤ) :=
  if res.any (fun p => p.1 == k) then
    res.map fun p => if p.1 == k then (k, v) else p
  else
    res ++ [(k, v)]

/-- The key loop of jsonify_points (cell_detection.py lines 189-206): a
centroid key consumes three value columns emitted under the keys z, y, x; any
other key consumes one column under its own name; a final check requires all
value columns to have been consumed. -/
def jsonifyGo (values : List (List ℤ)) :
    List String → ℕ → List (String × List ℤ) → Except String (List (String × List ℤ))
  | [], i, res =>
    if i = values.length then .ok res
    else .error "ValueError: Too many point properties for the number of keys"
  | k :: rest, i, res =>
    if k = "centroid" then
      match values.get? i, values.get? (i + 1), values.get? (i + 2) with
      | some vz, some vy, some vx =>
          jsonifyGo values rest (i + 3) (upsert (upsert (upsert res "z" vz) "y" vy) "x" vx)
      | _, _, _ => .error "IndexError: index out of range"
    else
      match values.get? i with
      | some v => jsonifyGo values rest (i + 1) (upsert res k v)
      | none => .error "IndexError: index out of range"

/-- Embedding of jsonify_points. -/
def jsonify_points (keys : List String) (values : List (List ℤ)) :
    Except String (List (String × List ℤ)) :=
  jsonifyGo values keys 0 []

/-- The value columns a join_points result hands to jsonify_points: the
transposed data columns, or the zero-length np.zeros((0, 3)) array. -/
def joinValues : JoinOut → List (List ℤ)
  | .zeros03 => []
  | .cols l => l

/-- Lookup of one key in a jsonify_points outcome, none on an exception (used
to state witness evaluations without binders). -/
def lookupOut (e : Except String (List (String × List ℤ))) (k : String) :
    Option (List ℤ) :=
  match e with
  | .ok res => res.lookup k
  | .error _ => none

/-- Run-level inputs of process_flow that the embedding abstracts: the unique
run-root directory and source copy name chosen by unique_temp_dir / uuid4, the
chunk grid produced by chunk_ranges together with each chunk task's observable
behaviour, the sink flag, and the process count. -/
structure FlowEnv where
  runRoot : FPath
  sourceName : String
  chunkSpecs : List SubStackSpec
  uniq : List Chunk
  ovl : List Chunk
  sink : Bool
  processes : ℕ

/-- Observable outcome of one process_flow call: the final filesystem, the
returned table or propagated exception, the caller-visible output_properties
list after the call (the code mutates the argument list in place; the
embedding threads it explicitly), the properties list handed to every chunk
task through argdata, the chunk directories in order of task invocation, and
whether the sink was written. -/
structure FlowResult where
  fs : FS
  ret : Except String (List (String × List ℤ))
  outputProperties : List String
  argProps : List String
  executed : List String
  sinkWritten : Bool

/-- The output_properties value visible after the insert at the top of
process_flow (cell_detection.py lines 100-103): when properties are requested
and centroid is not already first, centroid is inserted at index 0 of the very
list object the caller passed (the embedding threads the mutated list through
FlowResult.outputProperties). -/
def effProps (op : List String) : List String :=
  if !op.isEmpty && (op.head? != some "centroid") then "centroid" :: op else op

/-- Whether one chunk task raises, as a function of its observable behaviour
and of whether properties were requested. -/
def subStackFails (s : SubStackSpec) (propsEmpty : Bool) : Bool :=
  s.flow.any (fun f => !f.ok) || (!propsEmpty && !s.propsOk)

/-- The exception a failing chunk task raises (the first failing filter wins
over label_props). -/
def subStackErr (s : SubStackSpec) : String :=
  if s.flow.any (fun f => !f.ok) then
    "OperatorError: a filter raised during chunk processing"
  else
    "OperatorError: label_props raised during chunk processing"

/-- Placeholder chunk spec used as the default of list indexing in theorem
statements. -/
def noSpec : SubStackSpec := ⟨"", [], true, []⟩

/-- Embedding of process_flow: creates the run root and the raw source copy
inside it, inserts the centroid property at index 0 of output_properties when
properties are requested and centroid is not already first, runs the chunk
tasks (sequentially when processes == 1, through the pool otherwise), and on
any task exception removes the run root and re-raises; on success joins and
jsonifies the results, removes the run root, and optionally writes the sink.
The join and jsonify calls sit outside the try block in the source, so an
exception they raise propagates without the run-root cleanup. -/
def process_flow (env : FlowEnv) (output_properties : List String) (fs : FS) :
    FlowResult :=
  let fs1 := fs ++ [env.runRoot, env.runRoot ++ [env.sourceName]]
  let props := effProps output_properties
  let run :=
    if env.processes = 1 then runChunksSeq env.runRoot props env.chunkSpecs fs1
    else runChunksPool env.runRoot props env.chunkSpecs fs1
  let fin : FS × Except String (List (String × List ℤ)) × Bool :=
    match run.2.1 with
    | .error e => (rmtree env.runRoot run.1, .error e, false)
    | .ok results =>
      match join_points results env.uniq env.ovl with
      | .error e => (run.1, .error e, false)
      | .ok joined =>
        match jsonify_points props (joinValues joined) with
        | .error e => (run.1, .error e, false)
        | .ok table => (rmtree env.runRoot run.1, .ok table, env.sink)
  { fs := fin.1, ret := fin.2.1, outputProperties := props, argProps := props,
    executed := run.2.2, sinkWritten := fin.2.2 }

/-! Theorems.  Helper lemmas come first, then one theorem per claim (with its
witness or counterexample where required). -/

theorem addOverlapChunk_ok (overlap : ℤ) (shape : List ℤ) (ch : Chunk) :
    ∀ ax : ℕ, ax + ch.length ≤ shape.length →
    addOverlapChunk overlap shape ch ax =
      .ok ((ch.zip (shape.drop ax)).map fun p =>
        (max (p.1.1 - overlap) 0, min (p.1.2 + overlap) p.2)) := by
  induction ch with
  | nil => intro ax _; simp [addOverlapChunk]
  | cons hd tl ih =>
    intro ax h
    obtain ⟨lo, hi⟩ := hd
    have hax : ax < shape.length := by simp at h; omega
    have hget : shape.get? ax = some shape[ax] := by
      rw [List.get?_eq_getElem?]; exact List.getElem?_eq_getElem hax
    have htl := ih (ax + 1) (by simp at h ⊢; omega)
    simp only [addOverlapChunk, hget, htl, List.drop_eq_getElem_cons hax]
    rfl

/-- Claim C6: each overlap range produced by add_overlap is exactly the unique
range expanded per axis by the overlap and clamped to the volume, namely start
is max(unique_start - overlap, 0) and stop is min(unique_stop + overlap,
axis_length); consequently it contains the unique range on every axis and
stays within [0, axis_length], and clamping at one boundary never grows the
opposite edge. -/
theorem claim6_overlap_containment (ranges : List Chunk) (overlap : ℤ) (shape : List ℤ)
    (hov : 0 ≤ overlap)
    (hlen : ∀ ch ∈ ranges, ch.length = shape.length)
    (hin : ∀ ch ∈ ranges, ∀ p ∈ ch.zip shape, 0 ≤ p.1.1 ∧ p.1.2 ≤ p.2) :
    add_overlap ranges overlap shape =
      .ok (ranges.map fun ch => (ch.zip shape).map fun p =>
        (max (p.1.1 - overlap) 0, min (p.1.2 + overlap) p.2)) ∧
    ∀ ch ∈ ranges, ∀ p ∈ ch.zip shape,
      max (p.1.1 - overlap) 0 ≤ p.1.1 ∧ p.1.2 ≤ min (p.1.2 + overlap) p.2 ∧
      0 ≤ max (p.1.1 - overlap) 0 ∧ min (p.1.2 + overlap) p.2 ≤ p.2 := by
  constructor
  · induction ranges with
    | nil => simp [add_overlap]
    | cons ch rest ih =>
      have hch := addOverlapChunk_ok overlap shape ch 0
        (by simpa using (hlen ch (List.mem_cons_self ch rest)).le)
      have hrest := ih (fun c hc => hlen c (List.mem_cons_of_mem ch hc))
        (fun c hc => hin c (List.mem_cons_of_mem ch hc))
      simp only [add_overlap, hch, List.drop_zero, hrest]
      rfl
  · intro ch hch p hp
    obtain ⟨h1, h2⟩ := hin ch hch p hp
    exact ⟨max_le (by omega) h1, le_min (by omega) h2, le_max_right _ _, min_le_right _ _⟩

theorem claim6_overlap_containment_witness :
    add_overlap [[(2, 5), (0, 4), (3, 10)]] 3 [10, 10, 10] =
      .ok ([[((2 : ℤ), (5 : ℤ)), (0, 4), (3, 10)]].map fun ch =>
        (ch.zip [(10 : ℤ), 10, 10]).map fun p =>
          (max (p.1.1 - 3) 0, min (p.1.2 + 3) p.2)) ∧
    max ((2 : ℤ) - 3) 0 ≤ 2 :=
  ⟨(claim6_overlap_containment [[(2, 5), (0, 4), (3, 10)]] 3 [10, 10, 10]
      (by decide) (by decide) (by decide)).1,
   ((claim6_overlap_containment [[(2, 5), (0, 4), (3, 10)]] 3 [10, 10, 10]
      (by decide) (by decide) (by decide)).2
      [(2, 5), (0, 4), (3, 10)] (by decide) ((2, 5), 10) (by decide)).1⟩

theorem except_bind_ok {α β : Type} (a : α) (f : α → Except String β) :
    (Except.ok a >>= f) = f a := rfl

theorem except_bind_err {α β : Type} (e : String) (f : α → Except String β) :
    ((Except.error e : Except String α) >>= f) = .error e := rfl

/-- Claim C5: on an axis that does not divide evenly by its computed max chunk
size, splitAxis produces ceil(axis / max_size) pieces, all but the last equal
to the floor of axis / n_chunks, the last absorbing the remainder, and the
pieces sum to the axis length; in the scenario axis = 100, max_size = 30,
overlap = 5 this gives four unique ranges of length 25 tiling [0, 100), whose
overlap ranges are each expanded by 5 per side and clamped to [0, 100], the
first being [0, 30) and the last [70, 100). -/
theorem claim5_uneven_division :
    (∀ axis ms mn n q : ℤ, 0 < axis → 0 < ms → axis.fmod ms ≠ 0 →
      n = ⌈(axis : ℚ) / (ms : ℚ)⌉ → q = axis.fdiv n → mn ≤ q →
      splitAxis axis ms mn =
        .ok (List.replicate (n - 1).toNat q ++ [axis - (n - 1) * q]) ∧
      (List.replicate (n - 1).toNat q ++ [axis - (n - 1) * q]).sum = axis ∧
      (List.replicate (n - 1).toNat q ++ [axis - (n - 1) * q]).length = n.toNat) ∧
    splitAxis 100 30 10 = .ok [25, 25, 25, 25] ∧
    ranges_from_sizes [25, 25, 25, 25] = [(0, 25), (25, 50), (50, 75), (75, 100)] ∧
    add_overlap [[(0, 25)], [(25, 50)], [(50, 75)], [(75, 100)]] 5 [100] =
      .ok [[(0, 30)], [(20, 55)], [(45, 80)], [(70, 100)]] := by
  refine ⟨?_, by with_unfolding_all rfl, rfl, rfl⟩
  intro axis ms mn n q haxis hms hmod hn hq hmin
  have hn1 : 1 ≤ n := by
    rw [hn]
    exact Int.ceil_pos.mpr (div_pos (by exact_mod_cast haxis) (by exact_mod_cast hms))
  have hrepl : (List.replicate (n - 1).toNat q).sum = (n - 1) * q := by
    rw [List.sum_replicate, nsmul_eq_mul, Int.toNat_of_nonneg (by omega)]
  refine ⟨?_, ?_, ?_⟩
  · simp only [splitAxis, if_neg (by omega : ¬ ms = 0), if_pos hmod, ← hn, ← hq,
      if_neg (by omega : ¬ n = 0), if_neg (not_lt.mpr hmin), hrepl]
  · rw [List.sum_append, hrepl, List.sum_singleton]
    ring
  · simp only [List.length_append, List.length_replicate, List.length_singleton]
    omega

theorem claim5_uneven_division_witness :
    splitAxis 100 30 10 =
      .ok (List.replicate ((4 : ℤ) - 1).toNat 25 ++ [100 - ((4 : ℤ) - 1) * 25]) ∧
    (List.replicate ((4 : ℤ) - 1).toNat 25 ++ [(100 : ℤ) - ((4 : ℤ) - 1) * 25]).sum = 100 ∧
    (List.replicate ((4 : ℤ) - 1).toNat 25 ++ [(100 : ℤ) - ((4 : ℤ) - 1) * 25]).length =
      (4 : ℤ).toNat :=
  claim5_uneven_division.1 100 30 10 4 25 (by decide) (by decide) (by decide)
    (by with_unfolding_all rfl) (by decide) (by decide)

theorem chunkAxes_err (c : ℚ) (ov : ℤ) (mins : List ℤ) (ar : List ℚ) :
    ∀ (axes : List ℤ) (k : ℕ),
      (∃ i, i < axes.length ∧ k + i < mins.length ∧ k + i < ar.length ∧
        maxSize c (ar.getD (k + i) 0) ov < mins.getD (k + i) 0) →
      ∃ e, chunkAxes c ov mins ar axes k = .error e := by
  intro axes
  induction axes with
  | nil =>
    intro k h
    obtain ⟨i, hi, -⟩ := h
    simp at hi
  | cons axis rest ih =>
    intro k h
    obtain ⟨i, hi, him, hia, hbad⟩ := h
    cases i with
    | zero =>
      simp only [Nat.add_zero] at him hia hbad
      have hm : mins.get? k = some (mins.getD k 0) := by
        rw [List.get?_eq_getElem?, List.getElem?_eq_getElem him, List.getD_eq_getElem _ _ him]
      have ha : ar.get? k = some (ar.getD k 0) := by
        rw [List.get?_eq_getElem?, List.getElem?_eq_getElem hia, List.getD_eq_getElem _ _ hia]
      have hstep : chunkAxes c ov mins ar (axis :: rest) k =
          .error "ValueError: min_size along axis too large. results in substack larger than max chunk." := by
        simp only [chunkAxes, hm, ha, if_pos hbad]
      exact ⟨_, hstep⟩
    | succ j =>
      cases hmk : mins.get? k with
      | none =>
        have hstep : chunkAxes c ov mins ar (axis :: rest) k =
            .error "IndexError: tuple index out of range" := by
          simp only [chunkAxes, hmk]
        exact ⟨_, hstep⟩
      | some m =>
        cases hak : ar.get? k with
        | none =>
          have hstep : chunkAxes c ov mins ar (axis :: rest) k =
              .error "IndexError: tuple index out of range" := by
            simp only [chunkAxes, hmk, hak]
          exact ⟨_, hstep⟩
        | some r =>
          by_cases hgt : m > maxSize c r ov
          · have hstep : chunkAxes c ov mins ar (axis :: rest) k =
                .error "ValueError: min_size along axis too large. results in substack larger than max chunk." := by
              simp only [chunkAxes, hmk, hak, if_pos hgt]
            exact ⟨_, hstep⟩
          · have hidx : k + 1 + j = k + (j + 1) := by omega
            obtain ⟨e, he⟩ := ih (k + 1)
              ⟨j, by simp at hi; omega, by omega, by omega, by rw [hidx]; exact hbad⟩
            cases hsp : splitAxis axis (maxSize c r ov) m with
            | error e' =>
              exact ⟨e', by simp only [chunkAxes, hmk, hak, if_neg hgt, hsp, except_bind_err]⟩
            | ok sizes =>
              refine ⟨e, ?_⟩
              simp only [chunkAxes, hmk, hak, if_neg hgt, hsp, except_bind_ok, he,
                except_bind_err]

/-- Claim C7: chunk_ranges rejects unsatisfiable configurations before touching
any voxel data (its checks consume only shape metadata; the embedded function
has no data parameter): if the requested overlap exceeds some min_sizes entry
it raises the overlap ValueError, and if the volume must be partitioned and on
some axis the computed max chunk size is smaller than that axis min_sizes
entry, it raises an error as well. -/
theorem claim7_configuration_errors :
    (∀ (shape : List ℤ) (ov : ℤ) (mins : List ℤ) (ar : List ℚ) (cs c : ℚ),
      shape.length = 3 → ar.length = 3 →
      mins.any (fun s => decide (ov > s)) = true →
      chunk_ranges shape ov mins ar cs c =
        .error "ValueError: overnlap cannot be smaller thn any value in min_size") ∧
    (∀ (shape : List ℤ) (ov : ℤ) (mins : List ℤ) (ar : List ℚ) (cs c : ℚ),
      cs < ((shape.prod : ℤ) : ℚ) →
      (∃ a, a < shape.length ∧ a < mins.length ∧ a < ar.length ∧
        maxSize c (ar.getD a 0) ov < mins.getD a 0) →
      ∃ e, chunk_ranges shape ov mins ar cs c = .error e) := by
  constructor
  · intro shape ov mins ar cs c h1 h2 h3
    simp only [chunk_ranges, if_neg (by omega : ¬ shape.length ≠ 3),
      if_neg (by omega : ¬ ar.length ≠ 3), if_pos h3]
  · intro shape ov mins ar cs c hcs hbad
    by_cases h1 : shape.length = 3
    · by_cases h2 : ar.length = 3
      · by_cases h3 : mins.any (fun s => decide (ov > s)) = true
        · have hstep : chunk_ranges shape ov mins ar cs c =
              .error "ValueError: overnlap cannot be smaller thn any value in min_size" := by
            simp only [chunk_ranges, if_neg (by omega : ¬ shape.length ≠ 3),
              if_neg (by omega : ¬ ar.length ≠ 3), if_pos h3]
          exact ⟨_, hstep⟩
        · obtain ⟨e, he⟩ := chunkAxes_err c ov mins ar shape 0
            (by obtain ⟨a, ha⟩ := hbad; exact ⟨a, by simpa using ha⟩)
          refine ⟨e, ?_⟩
          simp only [chunk_ranges, if_neg (by omega : ¬ shape.length ≠ 3),
            if_neg (by omega : ¬ ar.length ≠ 3), if_neg h3, if_pos hcs, he, except_bind_err]
      · have hstep : chunk_ranges shape ov mins ar cs c =
            .error "ValueError: aspect_ratio must have same number of dimensions as source" := by
          simp only [chunk_ranges, if_neg (by omega : ¬ shape.length ≠ 3), if_pos h2]
        exact ⟨_, hstep⟩
    · have hstep : chunk_ranges shape ov mins ar cs c =
          .error "ValueError: source must be 3 dimensional" := by
        simp only [chunk_ranges, if_pos h1]
      exact ⟨_, hstep⟩

theorem claim7_configuration_errors_witness :
    chunk_ranges [40, 40, 40] 15 [10, 10, 10] [1, 10, 10] 1 1 =
      .error "ValueError: overnlap cannot be smaller thn any value in min_size" ∧
    (chunk_ranges [100, 100, 100] 10 [80, 80, 80] [1, 1, 1] 5 60).isOk = false := by
  refine ⟨claim7_configuration_errors.1 [40, 40, 40] 15 [10, 10, 10] [1, 10, 10] 1 1
      rfl rfl (by decide), ?_⟩
  obtain ⟨e, he⟩ := claim7_configuration_errors.2 [100, 100, 100] 10 [80, 80, 80]
    [1, 1, 1] 5 60 (by norm_num)
    ⟨0, by norm_num, by norm_num, by norm_num, by with_unfolding_all decide⟩
  rw [he]
  rfl

/-- Claim C1 (code bug evaluation): a configuration that passes every
constraint check and forces partitioning, yet on which chunk_ranges returns no
chunk grid at all.  With shape 100x100x100 (itemsize 1), overlap 5, min_sizes
(10,10,10), aspect_ratio (1,1,1) and a voxel budget of 217600 (so the float c
is about 60.15 and each axis max chunk size is floor(60.15) - 10 = 50), the
overlap check passes (first conjunct), partitioning is forced (second), the
min_size check passes (third), axis 100 divides evenly by max size 50
(fourth) - and the even-split branch evaluates
`[max_size] * (axis / max_size)`, true division making the count a float, so
the call raises TypeError instead of returning the tiling grid the claim and
the spec promise. -/
theorem claim1_even_division_bug :
    (([(10 : ℤ), 10, 10].all fun s => decide ((5 : ℤ) ≤ s)) = true) ∧
    (217600 : ℚ) < ((([100, 100, 100] : List ℤ).prod : ℤ) : ℚ) ∧
    (10 : ℤ) ≤ maxSize (6015 / 100) 1 5 ∧
    (100 : ℤ).fmod (maxSize (6015 / 100) 1 5) = 0 ∧
    chunk_ranges [100, 100, 100] 5 [10, 10, 10] [1, 1, 1] 217600 (6015 / 100) =
      .error "TypeError: cannot multiply sequence by non-int of type float" :=
  ⟨by decide, by with_unfolding_all decide, by with_unfolding_all decide,
   by with_unfolding_all decide, by with_unfolding_all rfl⟩

/-- Claim C4 (code bug evaluation): when the whole volume fits in the budget,
the caller-observed unique_chunks value is `[[0, s0], [0, s1], [0, s2]]` - a
3-element list whose entries are bare 2-element ranges - rather than a list
containing exactly one chunk, whatever that chunk might be.  For the 40x40x40
volume with a budget of 1000000 voxels (far above the 64000 voxel size), both
unpacked values are that 3-element list. -/
theorem claim4_no_split_not_one_chunk :
    chunk_ranges [40, 40, 40] 10 [30, 30, 30] [1, 10, 10] 1000000 1 =
      .ok (Py.list [Py.list [.int 0, .int 40], Py.list [.int 0, .int 40],
             Py.list [.int 0, .int 40]],
           Py.list [Py.list [.int 0, .int 40], Py.list [.int 0, .int 40],
             Py.list [.int 0, .int 40]]) ∧
    pyLen (Py.list [Py.list [.int 0, .int 40], Py.list [.int 0, .int 40],
      Py.list [.int 0, .int 40]]) = 3 ∧
    ∀ ch : Chunk,
      Py.list [Py.list [.int 0, .int 40], Py.list [.int 0, .int 40],
        Py.list [.int 0, .int 40]] ≠ chunksToPy [ch] :=
  ⟨by with_unfolding_all rfl, rfl, by
    intro ch h
    have := congrArg pyLen h
    simp [pyLen, chunksToPy] at this⟩

/-- Claim C3 counterexample: a non-empty list of chunk results in which no
chunk yields any detections, on which join_points raises instead of returning
the empty result.  The single chunk returned the empty list - exactly what
processSubStack returns when output_properties is empty - so the
`len(r) > 0` filter drops it, and the loop then indexes the filtered list
with the chunk index, raising IndexError. -/
theorem claim3_counterexample :
    join_points [[]] [[(0, 40), (0, 40), (0, 40)]] [[(0, 40), (0, 40), (0, 40)]] =
      .error "IndexError: list index out of range" := rfl

theorem joinIter_empty (results : List ChunkRes) (uniq ovl : List Chunk)
    (h : ∀ r ∈ results, r.headD [] = []) :
    ∀ is : List ℕ, (∀ i ∈ is, i < results.length) →
      joinIter results uniq ovl is none = .ok none := by
  intro is
  induction is with
  | nil => intro _; rfl
  | cons i rest ih =>
    intro hlt
    have hi : i < results.length := hlt i (List.mem_cons_self i rest)
    have hr : results[i]? = some results[i] := List.getElem?_eq_getElem hi
    have hhead : (results[i]).headD [] = [] := h _ (List.getElem_mem hi)
    have hstep : joinStep results uniq ovl i none = .ok none := by
      simp only [joinStep, List.get?_eq_getElem?, hr, hhead]
      rfl
    simp only [joinIter, hstep]
    exact ih fun j hj => hlt j (List.mem_cons_of_mem i hj)

/-- Claim C3 (amended): for every non-empty list of chunk results in which
every chunk result is a non-empty list of property columns with zero
detections (an empty coordinate column), join_points returns the explicitly
empty zero-row result np.zeros((0, 3)) and does not raise. -/
theorem claim3_no_detections (results : List ChunkRes) (uniq ovl : List Chunk)
    (_hne : results ≠ [])
    (h : ∀ r ∈ results, r ≠ [] ∧ r.headD [] = []) :
    join_points results uniq ovl = .ok .zeros03 := by
  have hfil : results.filter (fun r => !r.isEmpty) = results :=
    List.filter_eq_self.mpr fun r hr => by
      simpa [List.isEmpty_iff] using (h r hr).1
  have hloop := joinIter_empty results uniq ovl (fun r hr => (h r hr).2)
    (List.range results.length) (fun i hi => List.mem_range.mp hi)
  simp only [join_points, hfil, hloop, except_bind_ok]

theorem claim3_no_detections_witness :
    join_points [[[]], [[], []]] [[(0, 5)], [(5, 10)]] [[(0, 6)], [(4, 10)]] =
      .ok .zeros03 :=
  claim3_no_detections [[[]], [[], []]] [[(0, 5)], [(5, 10)]] [[(0, 6)], [(4, 10)]]
    (by decide) (by decide)

theorem rmtree_not_under (root : FPath) (fs : FS) :
    ∀ q ∈ rmtree root fs, root.isPrefixOf q = false := by
  intro q hq
  simpa using List.of_mem_filter hq

theorem isPrefixOf_trans : ∀ a b c : FPath,
    a.isPrefixOf b = true → b.isPrefixOf c = true → a.isPrefixOf c = true := by
  intro a
  induction a with
  | nil => intro b c _ _; simp [List.isPrefixOf]
  | cons x xs ih =>
    intro b c hab hbc
    cases b with
    | nil => simp [List.isPrefixOf] at hab
    | cons y ys =>
      cases c with
      | nil => simp [List.isPrefixOf] at hbc
      | cons z zs =>
        simp only [List.isPrefixOf, Bool.and_eq_true, beq_iff_eq] at hab hbc ⊢
        exact ⟨hab.1.trans hbc.1, ih ys zs hab.2 hbc.2⟩

theorem isPrefixOf_append_self (a t : FPath) : a.isPrefixOf (a ++ t) = true := by
  induction a with
  | nil => simp [List.isPrefixOf]
  | cons x xs ih => simp [List.isPrefixOf, ih]

theorem runFilters_ok (dir : FPath) :
    ∀ (flow : List FilterStep) (fs : FS), flow.all (fun f => f.ok) = true →
      (runFilters dir flow fs).2 = true := by
  intro flow
  induction flow with
  | nil => intro fs _; rfl
  | cons f rest ih =>
    intro fs hall
    simp only [List.all_cons, Bool.and_eq_true] at hall
    simp only [runFilters, hall.1, if_pos]
    exact ih _ hall.2

theorem runFilters_fail (dir : FPath) :
    ∀ (flow : List FilterStep) (fs : FS), flow.any (fun f => !f.ok) = true →
      (runFilters dir flow fs).2 = false := by
  intro flow
  induction flow with
  | nil => intro fs h; simp at h
  | cons f rest ih =>
    intro fs hany
    by_cases hok : f.ok = true
    · have hrest : rest.any (fun f => !f.ok) = true := by
        simpa [List.any_cons, hok] using hany
      simp only [runFilters, hok, if_pos]
      exact ih _ hrest
    · have hok' : f.ok = false := by revert hok; cases f.ok <;> simp
      simp [runFilters, hok']

theorem processSubStack_fail (root : FPath) (s : SubStackSpec) (props : List String)
    (fs : FS) (h : subStackFails s props.isEmpty = true) :
    ∃ fs2, processSubStack root s props fs = (fs2, .error (subStackErr s)) := by
  by_cases hflow : s.flow.any (fun f => !f.ok) = true
  · have h2 := runFilters_fail (root ++ [s.dirName]) s.flow
      (fs ++ [root ++ [s.dirName], (root ++ [s.dirName]) ++ ["mmap.tif"],
        (root ++ [s.dirName]) ++ ["raw.tif"]]) hflow
    refine ⟨(runFilters (root ++ [s.dirName]) s.flow
      (fs ++ [root ++ [s.dirName], (root ++ [s.dirName]) ++ ["mmap.tif"],
        (root ++ [s.dirName]) ++ ["raw.tif"]])).1, ?_⟩
    simp only [processSubStack, h2, Bool.not_false, if_true, subStackErr, hflow]
  · have hflow' : s.flow.any (fun f => !f.ok) = false := by
      revert hflow; cases s.flow.any (fun f => !f.ok) <;> simp
    have hall : s.flow.all (fun f => f.ok) = true := by
      rw [List.all_eq_not_any_not]
      simp only [hflow', Bool.not_false]
    have h2 := runFilters_ok (root ++ [s.dirName]) s.flow
      (fs ++ [root ++ [s.dirName], (root ++ [s.dirName]) ++ ["mmap.tif"],
        (root ++ [s.dirName]) ++ ["raw.tif"]]) hall
    have hprop : (!props.isEmpty && !s.propsOk) = true := by
      rw [subStackFails, hflow', Bool.false_or] at h
      exact h
    refine ⟨(runFilters (root ++ [s.dirName]) s.flow
      (fs ++ [root ++ [s.dirName], (root ++ [s.dirName]) ++ ["mmap.tif"],
        (root ++ [s.dirName]) ++ ["raw.tif"]])).1, ?_⟩
    simp only [processSubStack, h2, Bool.not_true, if_false, hprop, if_true,
      subStackErr, hflow']
    simp

theorem processSubStack_done (root : FPath) (s : SubStackSpec) (props : List String)
    (fs : FS) (h : subStackFails s props.isEmpty = false) :
    ∃ fs2, processSubStack root s props fs =
      (rmtree (root ++ [s.dirName]) fs2,
       .ok (if props.isEmpty then [] else s.props)) := by
  have hflow' : s.flow.any (fun f => !f.ok) = false := by
    cases hf : s.flow.any (fun f => !f.ok)
    · rfl
    · rw [subStackFails, hf, Bool.true_or] at h; exact absurd h (by simp)
  have hprop : (!props.isEmpty && !s.propsOk) = false := by
    rw [subStackFails, hflow', Bool.false_or] at h
    exact h
  have hall : s.flow.all (fun f => f.ok) = true := by
    rw [List.all_eq_not_any_not]
    simp only [hflow', Bool.not_false]
  have h2 := runFilters_ok (root ++ [s.dirName]) s.flow
    (fs ++ [root ++ [s.dirName], (root ++ [s.dirName]) ++ ["mmap.tif"],
      (root ++ [s.dirName]) ++ ["raw.tif"]]) hall
  refine ⟨(runFilters (root ++ [s.dirName]) s.flow
    (fs ++ [root ++ [s.dirName], (root ++ [s.dirName]) ++ ["mmap.tif"],
      (root ++ [s.dirName]) ++ ["raw.tif"]])).1, ?_⟩
  simp only [processSubStack, h2, Bool.not_true, if_false, hprop]
  simp

theorem runChunksSeq_firstFail (root : FPath) (props : List String) :
    ∀ (specs : List SubStackSpec) (fs : FS) (k : ℕ),
      k < specs.length →
      subStackFails (specs.getD k noSpec) props.isEmpty = true →
      (∀ j, j < k → subStackFails (specs.getD j noSpec) props.isEmpty = false) →
      ∃ fs2, runChunksSeq root props specs fs =
        (fs2, .error (subStackErr (specs.getD k noSpec)),
          (specs.take (k + 1)).map fun s => s.dirName) := by
  intro specs
  induction specs with
  | nil => intro fs k hk _ _; simp at hk
  | cons s rest ih =>
    intro fs k hk hfail hbef
    cases k with
    | zero =>
      obtain ⟨fs2, hps⟩ := processSubStack_fail root s props fs
        (by simpa [List.getD] using hfail)
      refine ⟨fs2, ?_⟩
      simp only [runChunksSeq, hps]
      simp [List.getD]
    | succ k' =>
      have hs : subStackFails s props.isEmpty = false := by
        simpa [List.getD] using hbef 0 (Nat.succ_pos k')
      obtain ⟨fs2, hps⟩ := processSubStack_done root s props fs hs
      obtain ⟨fs3, hrec⟩ := ih (rmtree (root ++ [s.dirName]) fs2) k'
        (by simpa using hk) (by simpa [List.getD] using hfail)
        (fun j hj => by simpa [List.getD] using hbef (j + 1) (by omega))
      refine ⟨fs3, ?_⟩
      simp only [runChunksSeq, hps, hrec]
      simp [List.getD, Except.map]

theorem runChunksSeq_err (root : FPath) (props : List String) :
    ∀ (specs : List SubStackSpec) (fs : FS),
      specs.any (fun s => subStackFails s props.isEmpty) = true →
      ∃ fs2 e ex, runChunksSeq root props specs fs = (fs2, .error e, ex) := by
  intro specs
  induction specs with
  | nil => intro fs h; simp at h
  | cons s rest ih =>
    intro fs hany
    by_cases hs : subStackFails s props.isEmpty = true
    · obtain ⟨fs2, hps⟩ := processSubStack_fail root s props fs hs
      exact ⟨fs2, subStackErr s, [s.dirName], by simp only [runChunksSeq, hps]⟩
    · have hs' : subStackFails s props.isEmpty = false := by
        revert hs; cases subStackFails s props.isEmpty <;> simp
      have hrest : rest.any (fun s => subStackFails s props.isEmpty) = true := by
        simpa [List.any_cons, hs'] using hany
      obtain ⟨fs2, hps⟩ := processSubStack_done root s props fs hs'
      obtain ⟨fs3, e, ex, hrec⟩ := ih (rmtree (root ++ [s.dirName]) fs2) hrest
      exact ⟨fs3, e, s.dirName :: ex, by
        simp only [runChunksSeq, hps, hrec]
        simp [Except.map]⟩

theorem runChunksPool_err (root : FPath) (props : List String) :
    ∀ (specs : List SubStackSpec) (fs : FS),
      specs.any (fun s => subStackFails s props.isEmpty) = true →
      ∃ fs2 e ex, runChunksPool root props specs fs = (fs2, .error e, ex) := by
  intro specs
  induction specs with
  | nil => intro fs h; simp at h
  | cons s rest ih =>
    intro fs hany
    by_cases hs : subStackFails s props.isEmpty = true
    · obtain ⟨fs2, hps⟩ := processSubStack_fail root s props fs hs
      exact ⟨(runChunksPool root props rest fs2).1, subStackErr s,
        s.dirName :: (runChunksPool root props rest fs2).2.2, by
          simp only [runChunksPool, hps]⟩
    · have hs' : subStackFails s props.isEmpty = false := by
        revert hs; cases subStackFails s props.isEmpty <;> simp
      have hrest : rest.any (fun s => subStackFails s props.isEmpty) = true := by
        simpa [List.any_cons, hs'] using hany
      obtain ⟨fs2, hps⟩ := processSubStack_done root s props fs hs'
      obtain ⟨fs3, e, ex, hrec⟩ := ih (rmtree (root ++ [s.dirName]) fs2) hrest
      exact ⟨fs3, e, s.dirName :: ex, by
        simp only [runChunksPool, hps, hrec]
        simp [Except.map]⟩

theorem effProps_isEmpty (op : List String) : (effProps op).isEmpty = op.isEmpty := by
  cases op with
  | nil => rfl
  | cons a t =>
    simp only [effProps]
    split <;> rfl

theorem process_flow_error (env : FlowEnv) (op : List String) (fs : FS)
    (fs2 : FS) (e : String) (ex : List String)
    (hrun : (if env.processes = 1 then
        runChunksSeq env.runRoot (effProps op) env.chunkSpecs
          (fs ++ [env.runRoot, env.runRoot ++ [env.sourceName]])
      else
        runChunksPool env.runRoot (effProps op) env.chunkSpecs
          (fs ++ [env.runRoot, env.runRoot ++ [env.sourceName]])) = (fs2, .error e, ex)) :
    process_flow env op fs =
      { fs := rmtree env.runRoot fs2, ret := .error e, outputProperties := effProps op,
        argProps := effProps op, executed := ex, sinkWritten := false } := by
  simp only [process_flow, hrun]

/-- Claim C8 counterexample: a chunk task whose first filter raises returns to
the scheduler with its chunk-scoped temporary directory (and the working copy
inside it) still on disk: processSubStack has no try/finally, so its rmtree
runs only on the fall-through path. -/
theorem claim8_counterexample :
    ((processSubStack ["tmp", "run1"] ⟨"chunk0", [⟨false, [["filtered.tif"]]⟩], true, []⟩
        ["centroid", "sum"] [["tmp", "run1"]]).2 =
      .error "OperatorError: a filter raised during chunk processing") ∧
    ["tmp", "run1", "chunk0"] ∈
      (processSubStack ["tmp", "run1"] ⟨"chunk0", [⟨false, [["filtered.tif"]]⟩], true, []⟩
        ["centroid", "sum"] [["tmp", "run1"]]).1 :=
  ⟨rfl, by decide⟩

/-- Claim C8 (amended): on a successful chunk task every path below the
chunk-scoped temporary directory is deleted before the worker returns; on a
failing task the worker returns with the directory still present (see the
counterexample), and it is the scheduler-level removal of the run-scoped root
in process_flow that deletes it, so after a failed run no path below any
chunk-scoped temporary directory remains. -/
theorem claim8_cleanup :
    (∀ (root : FPath) (spec : SubStackSpec) (props : List String) (fs : FS),
      subStackFails spec props.isEmpty = false →
      (processSubStack root spec props fs).2 =
        .ok (if props.isEmpty then [] else spec.props) ∧
      ∀ q ∈ (processSubStack root spec props fs).1,
        (root ++ [spec.dirName]).isPrefixOf q = false) ∧
    (∀ (env : FlowEnv) (op : List String) (fs : FS),
      env.chunkSpecs.any (fun s => subStackFails s op.isEmpty) = true →
      ∀ s ∈ env.chunkSpecs, ∀ q ∈ (process_flow env op fs).fs,
        (env.runRoot ++ [s.dirName]).isPrefixOf q = false) := by
  constructor
  · intro root spec props fs h
    obtain ⟨fs2, heq⟩ := processSubStack_done root spec props fs h
    rw [heq]
    exact ⟨rfl, rmtree_not_under _ _⟩
  · intro env op fs hany s hs q hq
    have hany' : env.chunkSpecs.any
        (fun s => subStackFails s (effProps op).isEmpty) = true := by
      rw [effProps_isEmpty]; exact hany
    have hroot : env.runRoot.isPrefixOf q = false := by
      by_cases hp : env.processes = 1
      · obtain ⟨fs2, e, ex, hrun⟩ := runChunksSeq_err env.runRoot (effProps op)
          env.chunkSpecs (fs ++ [env.runRoot, env.runRoot ++ [env.sourceName]]) hany'
        have := process_flow_error env op fs fs2 e ex (by rw [if_pos hp]; exact hrun)
        rw [this] at hq
        exact rmtree_not_under _ _ q hq
      · obtain ⟨fs2, e, ex, hrun⟩ := runChunksPool_err env.runRoot (effProps op)
          env.chunkSpecs (fs ++ [env.runRoot, env.runRoot ++ [env.sourceName]]) hany'
        have := process_flow_error env op fs fs2 e ex (by rw [if_neg hp]; exact hrun)
        rw [this] at hq
        exact rmtree_not_under _ _ q hq
    cases hq2 : (env.runRoot ++ [s.dirName]).isPrefixOf q
    · rfl
    · have := isPrefixOf_trans env.runRoot (env.runRoot ++ [s.dirName]) q
        (isPrefixOf_append_self _ _) hq2
      rw [hroot] at this
      exact absurd this (by simp)

theorem claim8_cleanup_witness :
    ((processSubStack ["tmp", "run1"] ⟨"chunk0", [⟨true, [["filtered.tif"]]⟩], true, [[]]⟩
        ["centroid", "sum"] [["tmp", "run1"]]).2 = .ok [[]]) ∧
    ((processSubStack ["tmp", "run1"]
        ⟨"chunk0", [⟨true, [["filtered.tif"]]⟩], true, [[]]⟩
        ["centroid", "sum"] [["tmp", "run1"]]).1.all fun q =>
      !(["tmp", "run1", "chunk0"] : FPath).isPrefixOf q) = true := by
  have h := claim8_cleanup.1 ["tmp", "run1"]
    ⟨"chunk0", [⟨true, [["filtered.tif"]]⟩], true, [[]]⟩
    ["centroid", "sum"] [["tmp", "run1"]] (by decide)
  refine ⟨h.1, List.all_eq_true.mpr fun q hq => ?_⟩
  simpa using h.2 q hq

theorem runChunksPool_executed (root : FPath) (props : List String) :
    ∀ (specs : List SubStackSpec) (fs : FS),
      (runChunksPool root props specs fs).2.2 = specs.map fun s => s.dirName := by
  intro specs
  induction specs with
  | nil => intro fs; rfl
  | cons s rest ih =>
    intro fs
    cases hp2 : (processSubStack root s props fs).2 with
    | error e => simp [runChunksPool, hp2, ih]
    | ok v => simp [runChunksPool, hp2, ih]

/-- Claim C9: on any run in which some chunk task raises, the scheduler
performs no retry, deletes the run-scoped temporary root, re-raises the
original task exception, and commits no final result table.  With
processes = 1 the chunks run sequentially in the calling context, in argdata
order up to and including the first failing task, each exactly once; with a
worker pool every task is dispatched exactly once and the first failing task
(in the serialized model of the pool) supplies the re-raised exception. -/
theorem claim9_no_retry_teardown :
    (∀ (env : FlowEnv) (op : List String) (fs : FS) (k : ℕ),
      env.processes = 1 →
      k < env.chunkSpecs.length →
      subStackFails (env.chunkSpecs.getD k noSpec) op.isEmpty = true →
      (∀ j, j < k → subStackFails (env.chunkSpecs.getD j noSpec) op.isEmpty = false) →
      (process_flow env op fs).ret =
        .error (subStackErr (env.chunkSpecs.getD k noSpec)) ∧
      (∀ q ∈ (process_flow env op fs).fs, env.runRoot.isPrefixOf q = false) ∧
      (process_flow env op fs).sinkWritten = false ∧
      (process_flow env op fs).executed =
        (env.chunkSpecs.take (k + 1)).map fun s => s.dirName) ∧
    (∀ (env : FlowEnv) (op : List String) (fs : FS),
      env.processes ≠ 1 →
      env.chunkSpecs.any (fun s => subStackFails s op.isEmpty) = true →
      (∃ e, (process_flow env op fs).ret = .error e) ∧
      (∀ q ∈ (process_flow env op fs).fs, env.runRoot.isPrefixOf q = false) ∧
      (process_flow env op fs).sinkWritten = false ∧
      (process_flow env op fs).executed = env.chunkSpecs.map fun s => s.dirName) := by
  constructor
  · intro env op fs k hp hk hfail hbef
    have hfail' : subStackFails (env.chunkSpecs.getD k noSpec) (effProps op).isEmpty = true := by
      rw [effProps_isEmpty]; exact hfail
    have hbef' : ∀ j, j < k →
        subStackFails (env.chunkSpecs.getD j noSpec) (effProps op).isEmpty = false := by
      intro j hj; rw [effProps_isEmpty]; exact hbef j hj
    obtain ⟨fs2, hrun⟩ := runChunksSeq_firstFail env.runRoot (effProps op) env.chunkSpecs
      (fs ++ [env.runRoot, env.runRoot ++ [env.sourceName]]) k hk hfail' hbef'
    have hflow := process_flow_error env op fs fs2
      (subStackErr (env.chunkSpecs.getD k noSpec))
      ((env.chunkSpecs.take (k + 1)).map fun s => s.dirName)
      (by rw [if_pos hp]; exact hrun)
    rw [hflow]
    exact ⟨rfl, rmtree_not_under _ _, rfl, rfl⟩
  · intro env op fs hp hany
    have hany' : env.chunkSpecs.any
        (fun s => subStackFails s (effProps op).isEmpty) = true := by
      rw [effProps_isEmpty]; exact hany
    obtain ⟨fs2, e, ex, hrun⟩ := runChunksPool_err env.runRoot (effProps op)
      env.chunkSpecs (fs ++ [env.runRoot, env.runRoot ++ [env.sourceName]]) hany'
    have hex : ex = env.chunkSpecs.map fun s => s.dirName := by
      have := runChunksPool_executed env.runRoot (effProps op) env.chunkSpecs
        (fs ++ [env.runRoot, env.runRoot ++ [env.sourceName]])
      rw [hrun] at this
      exact this.symm ▸ rfl
    have hflow := process_flow_error env op fs fs2 e ex (by rw [if_neg hp]; exact hrun)
    rw [hflow]
    exact ⟨⟨e, rfl⟩, rmtree_not_under _ _, rfl, hex⟩

theorem claim9_no_retry_teardown_witness :
    ((process_flow ⟨["tmp", "bq3d"], "src.tif",
        [⟨"c0", [⟨true, []⟩], true, [[]]⟩, ⟨"c1", [⟨false, []⟩], true, [[]]⟩],
        [], [], true, 1⟩ ["centroid"] []).ret =
      .error "OperatorError: a filter raised during chunk processing") ∧
    ((process_flow ⟨["tmp", "bq3d"], "src.tif",
        [⟨"c0", [⟨true, []⟩], true, [[]]⟩, ⟨"c1", [⟨false, []⟩], true, [[]]⟩],
        [], [], true, 1⟩ ["centroid"] []).fs.all fun q =>
      !(["tmp", "bq3d"] : FPath).isPrefixOf q) = true ∧
    (process_flow ⟨["tmp", "bq3d"], "src.tif",
        [⟨"c0", [⟨true, []⟩], true, [[]]⟩, ⟨"c1", [⟨false, []⟩], true, [[]]⟩],
        [], [], true, 1⟩ ["centroid"] []).sinkWritten = false ∧
    (process_flow ⟨["tmp", "bq3d"], "src.tif",
        [⟨"c0", [⟨true, []⟩], true, [[]]⟩, ⟨"c1", [⟨false, []⟩], true, [[]]⟩],
        [], [], true, 1⟩ ["centroid"] []).executed = ["c0", "c1"] ∧
    (process_flow ⟨["tmp", "bq3d"], "src.tif",
        [⟨"c0", [⟨true, []⟩], true, [[]]⟩, ⟨"c1", [⟨false, []⟩], true, [[]]⟩],
        [], [], true, 4⟩ ["centroid"] []).sinkWritten = false := by
  have h := claim9_no_retry_teardown.1 ⟨["tmp", "bq3d"], "src.tif",
      [⟨"c0", [⟨true, []⟩], true, [[]]⟩, ⟨"c1", [⟨false, []⟩], true, [[]]⟩],
      [], [], true, 1⟩ ["centroid"] [] 1 rfl (by decide) (by decide)
      (by decide)
  have h2 := claim9_no_retry_teardown.2 ⟨["tmp", "bq3d"], "src.tif",
      [⟨"c0", [⟨true, []⟩], true, [[]]⟩, ⟨"c1", [⟨false, []⟩], true, [[]]⟩],
      [], [], true, 4⟩ ["centroid"] [] (by decide) (by decide)
  refine ⟨h.1, List.all_eq_true.mpr fun q hq => ?_, h.2.2.1, h.2.2.2, h2.2.2.1⟩
  simpa using h.2.1 q hq

theorem lookup_cons (a k : String) (v : List ℤ) (l : List (String × List ℤ)) :
    ((k, v) :: l).lookup a = if (a == k) = true then some v else l.lookup a := by
  cases h : (a == k) <;> simp [List.lookup, h]

theorem lookup_map_overwrite_ne (k k0 : String) (v : List ℤ) (h : k0 ≠ k) :
    ∀ res : List (String × List ℤ),
      (res.map fun p => if p.1 == k then (k, v) else p).lookup k0 = res.lookup k0 := by
  intro res
  induction res with
  | nil => rfl
  | cons p t ih =>
    obtain ⟨pk, pv⟩ := p
    simp only [List.map_cons]
    by_cases hpk : pk = k
    · rw [if_pos (show ((pk, pv).1 == k) = true from beq_iff_eq.mpr hpk)]
      rw [lookup_cons, lookup_cons,
        if_neg (by simp [beq_eq_false_iff_ne.mpr h]),
        if_neg (by simp [beq_eq_false_iff_ne.mpr fun hh => h (hh.trans hpk)])]
      exact ih
    · rw [if_neg (show ¬ ((pk, pv).1 == k) = true by simp [hpk])]
      rw [lookup_cons, lookup_cons]
      by_cases hk0 : k0 = pk
      · rw [if_pos (beq_iff_eq.mpr hk0), if_pos (beq_iff_eq.mpr hk0)]
      · rw [if_neg (by simp [beq_eq_false_iff_ne.mpr hk0]),
          if_neg (by simp [beq_eq_false_iff_ne.mpr hk0])]
        exact ih

theorem lookup_append_single_ne (k k0 : String) (v : List ℤ) (h : k0 ≠ k) :
    ∀ res : List (String × List ℤ),
      (res ++ [(k, v)]).lookup k0 = res.lookup k0 := by
  intro res
  induction res with
  | nil => simp [List.lookup, beq_eq_false_iff_ne.mpr h]
  | cons p t ih =>
    simp only [List.cons_append, List.lookup]
    cases hk0p : (k0 == p.1)
    · exact ih
    · rfl

theorem upsert_lookup_ne (res : List (String × List ℤ)) (k k0 : String) (v : List ℤ)
    (h : k0 ≠ k) : (upsert res k v).lookup k0 = res.lookup k0 := by
  unfold upsert
  split
  · exact lookup_map_overwrite_ne k k0 v h res
  · exact lookup_append_single_ne k k0 v h res

theorem jsonifyGo_ok (values : List (List ℤ)) :
    ∀ (keys : List String) (i : ℕ) (res : List (String × List ℤ)),
      "centroid" ∉ keys → i + keys.length = values.length →
      ∃ res2, jsonifyGo values keys i res = .ok res2 ∧
        ∀ k0, k0 ∉ keys → res2.lookup k0 = res.lookup k0 := by
  intro keys
  induction keys with
  | nil =>
    intro i res _ hlen
    refine ⟨res, ?_, fun k0 _ => rfl⟩
    have hi : i = values.length := by simpa using hlen
    simp [jsonifyGo, hi]
  | cons k rest ih =>
    intro i res hc hlen
    have hkc : ¬ (k = "centroid") := fun h => hc (h ▸ List.mem_cons_self k rest)
    have hi : i < values.length := by simp at hlen; omega
    have hv : values[i]? = some values[i] := List.getElem?_eq_getElem hi
    obtain ⟨res2, hgo, hpres⟩ := ih (i + 1) (upsert res k values[i])
      (fun h => hc (List.mem_cons_of_mem k h)) (by simp at hlen ⊢; omega)
    refine ⟨res2, ?_, ?_⟩
    · simp only [jsonifyGo, if_neg hkc, List.get?_eq_getElem?, hv, hgo]
    · intro k0 hk0
      rw [hpres k0 (fun h => hk0 (List.mem_cons_of_mem k h)),
        upsert_lookup_ne res k k0 values[i] (fun h => hk0 (h ▸ List.mem_cons_self k rest))]

/-- Claim C10: when output_properties is non-empty and its first element is
not centroid, process_flow inserts centroid at index 0 of that list before any
chunk runs - the caller-visible list after the call is centroid followed by
the original entries, and every chunk task receives that same updated list
through argdata - and jsonify_points turns a centroid-led key list into a
table carrying the first three value columns under the keys z, y and x. -/
theorem claim10_centroid_insertion (env : FlowEnv) (op : List String) (fs : FS)
    (hne : op ≠ []) (hc : op.head? ≠ some "centroid") :
    (process_flow env op fs).outputProperties = "centroid" :: op ∧
    (process_flow env op fs).argProps = "centroid" :: op ∧
    (∀ (rest : List String) (values : List (List ℤ)),
      "centroid" ∉ rest → "z" ∉ rest → "y" ∉ rest → "x" ∉ rest →
      values.length = rest.length + 3 →
      ∃ res, jsonify_points ("centroid" :: rest) values = .ok res ∧
        res.lookup "z" = values.get? 0 ∧ res.lookup "y" = values.get? 1 ∧
        res.lookup "x" = values.get? 2) := by
  have heff : effProps op = "centroid" :: op := by
    cases op with
    | nil => exact absurd rfl hne
    | cons a t =>
      have ha : (a == "centroid") = false := by
        cases hx : (a == "centroid")
        · rfl
        · exact absurd (by simp [beq_iff_eq.mp hx]) hc
      simp [effProps, ha]
      exact beq_eq_false_iff_ne.mp ha
  refine ⟨heff, heff, ?_⟩
  intro rest values hcen hz hy hx hlen
  match values, hlen with
  | vz :: vy :: vx :: more, hlen =>
    have hres0 : upsert (upsert (upsert [] "z" vz) "y" vy) "x" vx =
        [("z", vz), ("y", vy), ("x", vx)] := by
      simp [upsert]
    obtain ⟨res2, hgo, hpres⟩ := jsonifyGo_ok (vz :: vy :: vx :: more) rest 3
      (upsert (upsert (upsert [] "z" vz) "y" vy) "x" vx) hcen
      (by simp at hlen ⊢; omega)
    refine ⟨res2, ?_, ?_, ?_, ?_⟩
    · simp only [jsonify_points, jsonifyGo, if_pos rfl]
      exact hgo
    · rw [hpres "z" hz, hres0]; rfl
    · rw [hpres "y" hy, hres0]; rfl
    · rw [hpres "x" hx, hres0]; rfl

theorem claim10_centroid_insertion_witness :
    (process_flow ⟨["tmp", "bq3d"], "src.tif", [], [], [], false, 1⟩
        ["sum"] []).outputProperties = ["centroid", "sum"] ∧
    (process_flow ⟨["tmp", "bq3d"], "src.tif", [], [], [], false, 1⟩
        ["sum"] []).argProps = ["centroid", "sum"] ∧
    (jsonify_points ["centroid", "sum"] [[5], [0], [0], [7]]).isOk = true ∧
    lookupOut (jsonify_points ["centroid", "sum"] [[5], [0], [0], [7]]) "z" = some [5] ∧
    lookupOut (jsonify_points ["centroid", "sum"] [[5], [0], [0], [7]]) "y" = some [0] ∧
    lookupOut (jsonify_points ["centroid", "sum"] [[5], [0], [0], [7]]) "x" = some [0] := by
  have h := claim10_centroid_insertion ⟨["tmp", "bq3d"], "src.tif", [], [], [], false, 1⟩
    ["sum"] [] (by decide) (by decide)
  obtain ⟨res, hok, hz, hy, hx⟩ := h.2.2 ["sum"] [[5], [0], [0], [7]]
    (by decide) (by decide) (by decide) (by decide) (by decide)
  refine ⟨h.1, h.2.1, by rw [hok]; rfl, ?_, ?_, ?_⟩ <;>
    simp only [lookupOut, hok]
  · exact hz
  · exact hy
  · exact hx

theorem coordsMat?_of_tup3 (col : PCol) (h : col.all isTup3 = true) :
    coordsMat? col = some (col.map tupVal) := by
  have h' := List.all_eq_true.mp h
  have hlen : ∀ v ∈ col, (tupVal v).length = 3 := by
    intro v hv
    have hv3 := h' v hv
    cases v with
    | int z => simp [isTup3] at hv3
    | tup l => simpa [isTup3, tupVal] using hv3
  have hA : col.all (fun v => !isIntV v) = true := by
    rw [List.all_eq_true]
    intro v hv
    have hv3 := h' v hv
    cases v with
    | int z => simp [isTup3] at hv3
    | tup l => simp [isIntV]
  have hB : (col.map tupVal).all
      (fun r => r.length == ((col.map tupVal).headD []).length) = true := by
    cases col with
    | nil => rfl
    | cons v t =>
      rw [List.all_eq_true]
      intro r hr
      simp only [List.map_cons, List.headD_cons] at hr ⊢
      rcases List.mem_cons.mp hr with hr0 | hr1
      · rw [hr0]
        exact beq_self_eq_true _
      · obtain ⟨x, hx, rfl⟩ := List.mem_map.mp hr1
        rw [hlen x (List.mem_cons_of_mem v hx), hlen v (List.mem_cons_self v t)]
        exact beq_self_eq_true _
  unfold coordsMat?
  rw [if_pos (by rw [Bool.and_eq_true]; exact ⟨hA, hB⟩)]

theorem headD_map_tupVal_len (col : PCol) (h : col.all isTup3 = true) (hne : col ≠ []) :
    ((col.map tupVal).headD []).length = 3 := by
  cases col with
  | nil => exact absurd rfl hne
  | cons v t =>
    simp only [List.map_cons, List.headD_cons]
    have hv3 := List.all_eq_true.mp h v (List.mem_cons_self v t)
    cases v with
    | int z => simp [isTup3] at hv3
    | tup l => simpa [isTup3, tupVal] using hv3

theorem chunkDataRows_of_no_coords (r : ChunkRes) (u o : Chunk)
    (h : ((r.headD []).map tupVal).length = 0) : chunkDataRows r u o = [] := by
  have hnil : (r.headD []).map tupVal = [] := List.length_eq_zero.mp h
  unfold chunkDataRows globCoords
  rw [hnil]
  rfl

theorem joinStep_wf (results : List ChunkRes) (uniq ovl : List Chunk) (p i : ℕ)
    (_hp : 1 ≤ p) (hi : i < results.length)
    (hu : uniq.length = results.length) (ho : ovl.length = results.length)
    (hwf : chunkWf (results.getD i []) (uniq.getD i []) (ovl.getD i []) p)
    (acc : JoinAcc) (hacc : acc = none ∨ ∃ rows0, acc = some (3 + p, rows0)) :
    joinStep results uniq ovl i acc =
      .ok (accAfter p (results.getD i []) (uniq.getD i []) (ovl.getD i []) acc) := by
  obtain ⟨hne, htail, htup, hcols, hul, hol⟩ := hwf
  have hiu : i < uniq.length := by omega
  have hio : i < ovl.length := by omega
  have hri : results[i]? = some (results.getD i []) := by
    rw [List.getElem?_eq_getElem hi, List.getD_eq_getElem _ _ hi]
  have hqu : uniq[i]? = some (uniq.getD i []) := by
    rw [List.getElem?_eq_getElem hiu, List.getD_eq_getElem _ _ hiu]
  have hqo : ovl[i]? = some (ovl.getD i []) := by
    rw [List.getElem?_eq_getElem hio, List.getD_eq_getElem _ _ hio]
  simp only [joinStep, List.get?_eq_getElem?, hri, coordsMat?_of_tup3 _ htup]
  by_cases hn : (((results.getD i []).headD []).map tupVal).length = 0
  · rw [if_pos hn]
    simp only [accAfter, if_pos hn]
  · rw [if_neg hn]
    have hcne : (results.getD i []).headD [] ≠ [] := by
      intro hh; rw [hh] at hn; simp at hn
    have hw : ((((results.getD i []).headD []).map tupVal).headD []).length = 3 :=
      headD_map_tupVal_len _ htup hcne
    have hrl : (((results.getD i []).headD []).map tupVal).length =
        ((results.getD i []).headD []).length := List.length_map _ _
    have htne : ¬ (results.getD i []).tail.isEmpty = true := by
      intro hh
      rw [List.isEmpty_iff] at hh
      rw [hh] at htail
      simp at htail
      omega
    have hprops : propsRows? (results.getD i []).tail
        (((results.getD i []).headD []).map tupVal).length =
        some (propsRowsOf (results.getD i [])) := by
      unfold propsRows? propsRowsOf
      rw [if_pos]
      rw [Bool.and_eq_true]
      constructor
      · simpa using htne
      · rw [List.all_eq_true]
        intro c hc
        have hcc := List.all_eq_true.mp hcols c hc
        rw [Bool.and_eq_true] at hcc ⊢
        exact ⟨hcc.1, by rw [hrl]; exact hcc.2⟩
    simp only [hqu, hqo, hw, hul, hol, hprops]
    rw [if_neg (by omega)]
    rcases hacc with rfl | ⟨rows0, rfl⟩
    · simp only [accAfter, if_neg hn, hw, htail]
      rfl
    · simp only [accAfter, if_neg hn, hw, htail]
      rw [if_neg (by omega)]
      rfl

theorem joinIter_wf (results : List ChunkRes) (uniq ovl : List Chunk) (p : ℕ)
    (hp : 1 ≤ p) (hu : uniq.length = results.length) (ho : ovl.length = results.length)
    (hwf : ∀ i, i < results.length →
      chunkWf (results.getD i []) (uniq.getD i []) (ovl.getD i []) p) :
    ∀ (m k : ℕ), k + m = results.length →
      ∀ acc, accInv results uniq ovl p k acc →
      ∃ acc2, joinIter results uniq ovl (List.range' k m) acc = .ok acc2 ∧
        accInv results uniq ovl p (k + m) acc2 := by
  intro m
  induction m with
  | zero => intro k _ acc hinv; exact ⟨acc, rfl, by simpa using hinv⟩
  | succ m' ih =>
    intro k hk acc hinv
    have hik : k < results.length := by omega
    have hacc : acc = none ∨ ∃ rows0, acc = some (3 + p, rows0) := by
      rcases hinv with ⟨rfl, -⟩ | rfl
      · exact Or.inl rfl
      · exact Or.inr ⟨_, rfl⟩
    have hstep := joinStep_wf results uniq ovl p k hp hik hu ho (hwf k hik) acc hacc
    have hdata : dataUpTo results uniq ovl (k + 1) =
        dataUpTo results uniq ovl k ++ chunkDataAt results uniq ovl k := by
      unfold dataUpTo
      rw [List.range_succ, List.flatMap_append]
      simp
    have hinv' : accInv results uniq ovl p (k + 1)
        (accAfter p (results.getD k []) (uniq.getD k []) (ovl.getD k []) acc) := by
      by_cases hn : (((results.getD k []).headD []).map tupVal).length = 0
      · have hcd : chunkDataAt results uniq ovl k = [] :=
          chunkDataRows_of_no_coords _ _ _ hn
        rcases hinv with ⟨rfl, hemp⟩ | rfl
        · exact Or.inl ⟨by simp only [accAfter, if_pos hn], by rw [hdata, hcd, hemp]; rfl⟩
        · right
          simp only [accAfter, if_pos hn]
          rw [hdata, hcd, List.append_nil]
      · rcases hinv with ⟨rfl, hemp⟩ | rfl
        · right
          simp only [accAfter, if_neg hn]
          rw [hdata, hemp, List.nil_append]
          rfl
        · right
          simp only [accAfter, if_neg hn]
          rw [hdata]
          rfl
    obtain ⟨acc2, hiter, hfin⟩ := ih (k + 1) (by omega) _ hinv'
    refine ⟨acc2, ?_, ?_⟩
    · rw [List.range'_succ]
      simp only [joinIter, hstep]
      exact hiter
    · have hkk : k + (m' + 1) = (k + 1) + m' := by omega
      rw [hkk]
      exact hfin

theorem globCoords_mem_len (r : ChunkRes) (o : Chunk)
    (htup : (r.headD []).all isTup3 = true) (hol : o.length = 3) :
    ∀ a ∈ globCoords o r, a.length = 3 := by
  intro a ha
  unfold globCoords at ha
  obtain ⟨g0, hg0, rfl⟩ := List.mem_map.mp ha
  obtain ⟨v, hv, rfl⟩ := List.mem_map.mp hg0
  have hv3 := List.all_eq_true.mp htup v hv
  have hvl : (tupVal v).length = 3 := by
    cases v with
    | int z => simp [isTup3] at hv3
    | tup l => simpa [isTup3, tupVal] using hv3
  rw [List.length_zipWith, hvl, List.length_map, hol]
  simp

theorem propsRowsOf_mem_len (r : ChunkRes) (p : ℕ) (htail : r.tail.length = p) :
    ∀ b ∈ propsRowsOf r, b.length = p := by
  intro b hb
  unfold propsRowsOf at hb
  obtain ⟨j, -, rfl⟩ := List.mem_map.mp hb
  rw [List.length_map, htail]

theorem chunkDataRows_width (r : ChunkRes) (u o : Chunk) (p : ℕ)
    (hwf : chunkWf r u o p) : ∀ row ∈ chunkDataRows r u o, row.length = 3 + p := by
  obtain ⟨-, htail, htup, -, -, hol⟩ := hwf
  intro row hrow
  unfold chunkDataRows at hrow
  obtain ⟨⟨g, pr⟩, hmem, heq⟩ := List.mem_filterMap.mp hrow
  obtain ⟨hg, hpr⟩ := List.of_mem_zip hmem
  by_cases hm : maskRow u g = true
  · rw [if_pos hm] at heq
    obtain rfl := Option.some.inj heq
    rw [List.length_append, globCoords_mem_len r o htup hol g hg,
      propsRowsOf_mem_len r p htail pr hpr]
  · rw [if_neg hm] at heq
    exact absurd heq (by simp)

theorem filterMap_mask_take (mask : List ℤ → Bool) :
    ∀ (A B : List (List ℤ)), (∀ a ∈ A, a.length = 3) → A.length = B.length →
    ((A.zip B).filterMap fun pr => if mask pr.1 then some (pr.1 ++ pr.2) else none).map
      (List.take 3) = A.filter mask := by
  intro A
  induction A with
  | nil => intro B _ _; rfl
  | cons a t ih =>
    intro B hA hlen
    cases B with
    | nil => simp at hlen
    | cons b s =>
      have hrec := ih s (fun x hx => hA x (List.mem_cons_of_mem a hx))
        (by simpa using hlen)
      by_cases hm : mask a = true
      · simp only [List.zip_cons_cons, List.filterMap_cons, if_pos hm, List.map_cons,
          List.filter_cons_of_pos hm, hrec]
        have h3 : a.length = 3 := hA a (List.mem_cons_self a t)
        rw [← h3, List.take_left]
      · simp only [List.zip_cons_cons, List.filterMap_cons, if_neg hm,
          List.filter_cons_of_neg (by simpa using hm), hrec]

theorem range_map_getD_eq_take (row : List ℤ) :
    ∀ k, k ≤ row.length →
      (List.range k).map (fun j => row.getD j 0) = row.take k := by
  intro k
  induction k with
  | zero => intro _; simp
  | succ k' ih =>
    intro hk
    rw [List.range_succ, List.map_append, ih (by omega), List.take_succ]
    simp [List.getD_eq_getElem?_getD, List.getElem?_eq_getElem (show k' < row.length by omega)]

theorem joinCoordRows_cols (w : ℕ) (rows : List (List ℤ)) (hw : 3 ≤ w)
    (hrow : ∀ r ∈ rows, r.length = w) :
    joinCoordRows (.ok (.cols ((List.range w).map fun j => rows.map fun r => r.getD j 0))) =
      rows.map (List.take 3) := by
  have hred : joinCoordRows (.ok (.cols
      ((List.range w).map fun j => rows.map fun r => r.getD j 0))) =
      (List.range ((((List.range w).map fun j =>
        rows.map fun r => r.getD j 0).headD []).length)).map fun j =>
        (((List.range w).map fun jj => rows.map fun r => r.getD jj 0).take 3).map
          fun col => col.getD j 0 := rfl
  rw [hred]
  have hhead : (((List.range w).map fun j => rows.map fun r => r.getD j 0).headD []) =
      rows.map fun r => r.getD 0 0 := by
    obtain ⟨w', rfl⟩ : ∃ w', w = w' + 1 := ⟨w - 1, by omega⟩
    rw [List.range_succ_eq_map]
    simp
  have htake : (((List.range w).map fun j => rows.map fun r => r.getD j 0).take 3) =
      (List.range 3).map fun j => rows.map fun r => r.getD j 0 := by
    rw [← List.map_take, List.take_range, Nat.min_eq_left hw]
  rw [hhead, htake, List.length_map]
  apply List.ext_getElem
  · simp
  · intro n h1 h2
    simp only [List.getElem_map, List.getElem_range, List.map_map]
    have hn : n < rows.length := by simpa using h1
    have hentry : ∀ j : ℕ, ((rows.map fun r => r.getD j 0).getD n 0) = rows[n].getD j 0 := by
      intro j
      rw [List.getD_eq_getElem?_getD, List.getElem?_map,
        List.getElem?_eq_getElem hn]
      rfl
    calc ((List.range 3).map fun j => (rows.map fun r => r.getD j 0).getD n 0)
        = (List.range 3).map fun j => rows[n].getD j 0 := by
          apply List.map_congr_left
          intro j _
          exact hentry j
      _ = rows[n].take 3 := range_map_getD_eq_take rows[n] 3
          (by rw [hrow rows[n] (List.getElem_mem hn)]; omega)

theorem map_flatMap_rows (h : List ℤ → List ℤ) (f : ℕ → List (List ℤ)) :
    ∀ l : List ℕ, ((l.flatMap f).map h) = l.flatMap fun x => (f x).map h := by
  intro l
  induction l with
  | nil => rfl
  | cons a t ih => simp [List.flatMap_cons, ih]

theorem flatMap_congr_rows (f f' : ℕ → List (List ℤ)) :
    ∀ l : List ℕ, (∀ a ∈ l, f a = f' a) → l.flatMap f = l.flatMap f' := by
  intro l
  induction l with
  | nil => intro _; rfl
  | cons a t ih =>
    intro h
    rw [List.flatMap_cons, List.flatMap_cons, h a (List.mem_cons_self a t),
      ih fun x hx => h x (List.mem_cons_of_mem a hx)]

theorem count_flatMap_rows (g : List ℤ) (f : ℕ → List (List ℤ)) :
    ∀ l : List ℕ, ((l.flatMap f).count g) = (l.map fun i => (f i).count g).sum := by
  intro l
  induction l with
  | nil => rfl
  | cons a t ih => simp [List.flatMap_cons, List.count_append, ih]

theorem count_filter_of_neg (g : List ℤ) (mask : List ℤ → Bool) (l : List (List ℤ))
    (h : mask g = false) : (l.filter mask).count g = 0 := by
  rw [List.count_eq_zero]
  intro hmem
  have hm := List.of_mem_filter hmem
  rw [h] at hm
  exact absurd hm (by simp)

theorem sum_map_indicator (q : ℕ → Bool) : ∀ l : List ℕ,
    (l.map fun i => if q i then 1 else 0).sum = l.countP q := by
  intro l
  induction l with
  | nil => rfl
  | cons a t ih =>
    simp only [List.map_cons, List.sum_cons, List.countP_cons, ih]
    by_cases hq : q a = true
    · simp [hq]
      omega
    · simp [hq]

theorem count_expected_rows (results : List ChunkRes) (uniq ovl : List Chunk) (g : List ℤ)
    (hone : ((List.range results.length).countP fun i => maskRow (uniq.getD i []) g) = 1)
    (hdet : ∀ i, i < results.length → maskRow (uniq.getD i []) g = true →
      (globCoords (ovl.getD i []) (results.getD i [])).count g = 1) :
    (((List.range results.length).flatMap fun i =>
      (globCoords (ovl.getD i []) (results.getD i [])).filter
        (maskRow (uniq.getD i []))).count g) = 1 := by
  rw [count_flatMap_rows, ← hone, ← sum_map_indicator]
  congr 1
  apply List.map_congr_left
  intro i hi
  have hilt := List.mem_range.mp hi
  by_cases hm : maskRow (uniq.getD i []) g = true
  · rw [List.count_filter hm, hdet i hilt hm, if_pos hm]
  · have hm' : maskRow (uniq.getD i []) g = false := by
      revert hm; cases maskRow (uniq.getD i []) g <;> simp
    rw [count_filter_of_neg _ _ _ hm', if_neg (by rw [hm']; simp)]

/-- Claim C2 counterexample: a list of per-chunk results paired index-wise
with the ranges, on which join_points neither keeps the detection correctly
nor returns at all.  Chunk 0 produced no detections (the empty result) and
chunk 1 produced one detection at local coordinate (1,0,0), i.e. global
(5,0,0) inside chunk 1 unique range; the code filters out the empty result
and then indexes the filtered list by chunk index, so chunk 1 data is paired
with chunk 0 ranges and the loop then raises IndexError - the merged output
required by the claim does not exist. -/
theorem claim2_counterexample :
    join_points
      [[], [[.tup [1, 0, 0]], [.int 7]]]
      [[(0, 5), (0, 5), (0, 5)], [(5, 10), (0, 5), (0, 5)]]
      [[(0, 6), (0, 5), (0, 5)], [(4, 10), (0, 5), (0, 5)]] =
      .error "IndexError: list index out of range" := rfl

/-- Claim C2 (amended): provided every chunk result is well-formed and
non-empty - the shape the pipeline produces whenever centroid plus at least
one further property is requested - join_points succeeds, its coordinate rows
are exactly the concatenation over chunks of the globalized coordinates
(chunk-local plus the overlap-range start per axis) filtered by membership in
that chunk unique range (start inclusive, stop exclusive per axis), and any
global coordinate lying in exactly one chunk unique range and reported once
by every chunk whose unique range owns it appears in the merged output
exactly once. -/
theorem claim2_merge_exactly_once (results : List ChunkRes) (uniq ovl : List Chunk)
    (p : ℕ) (g : List ℤ)
    (hp : 1 ≤ p)
    (hu : uniq.length = results.length) (ho : ovl.length = results.length)
    (hwf : ∀ i, i < results.length →
      chunkWf (results.getD i []) (uniq.getD i []) (ovl.getD i []) p)
    (hone : ((List.range results.length).countP fun i => maskRow (uniq.getD i []) g) = 1)
    (hdet : ∀ i, i < results.length → maskRow (uniq.getD i []) g = true →
      (globCoords (ovl.getD i []) (results.getD i [])).count g = 1) :
    (join_points results uniq ovl).isOk = true ∧
    joinCoordRows (join_points results uniq ovl) =
      ((List.range results.length).flatMap fun i =>
        (globCoords (ovl.getD i []) (results.getD i [])).filter
          (maskRow (uniq.getD i []))) ∧
    (joinCoordRows (join_points results uniq ovl)).count g = 1 := by
  have hfil : results.filter (fun r => !r.isEmpty) = results := by
    apply List.filter_eq_self.mpr
    intro r hr
    obtain ⟨i, hi, rfl⟩ := List.mem_iff_getElem.mp hr
    have hne := (hwf i hi).1
    rw [List.getD_eq_getElem _ _ hi] at hne
    simpa [List.isEmpty_iff] using hne
  obtain ⟨acc2, hit, hinv⟩ := joinIter_wf results uniq ovl p hp hu ho hwf
    results.length 0 (by omega) none (Or.inl ⟨rfl, rfl⟩)
  rw [Nat.zero_add] at hinv
  have hrange : List.range results.length = List.range' 0 results.length :=
    List.range_eq_range' _
  have hexp_eq : (dataUpTo results uniq ovl results.length).map (List.take 3) =
      ((List.range results.length).flatMap fun i =>
        (globCoords (ovl.getD i []) (results.getD i [])).filter
          (maskRow (uniq.getD i []))) := by
    unfold dataUpTo
    rw [map_flatMap_rows]
    apply flatMap_congr_rows
    intro i hi
    have hilt := List.mem_range.mp hi
    obtain ⟨-, htail, htup, -, hul, hol⟩ := hwf i hilt
    have hAlen : (globCoords (ovl.getD i []) (results.getD i [])).length =
        (propsRowsOf (results.getD i [])).length := by
      unfold globCoords propsRowsOf
      simp
    exact filterMap_mask_take (maskRow (uniq.getD i []))
      (globCoords (ovl.getD i []) (results.getD i []))
      (propsRowsOf (results.getD i []))
      (globCoords_mem_len _ _ htup hol) hAlen
  have hcount := count_expected_rows results uniq ovl g hone hdet
  rcases hinv with ⟨rfl, hemp⟩ | rfl
  · exfalso
    rw [← hexp_eq, hemp] at hcount
    simp at hcount
  · have hrows3 : ∀ row ∈ dataUpTo results uniq ovl results.length,
        row.length = 3 + p := by
      intro row hrow
      unfold dataUpTo at hrow
      obtain ⟨i, hi, hmem⟩ := List.mem_flatMap.mp hrow
      exact chunkDataRows_width _ _ _ p (hwf i (List.mem_range.mp hi)) row hmem
    have hjoin : join_points results uniq ovl =
        .ok (.cols ((List.range (3 + p)).map fun j =>
          (dataUpTo results uniq ovl results.length).map fun r => r.getD j 0)) := by
      simp only [join_points, hfil, hrange, hit, except_bind_ok]
    have hext := joinCoordRows_cols (3 + p) (dataUpTo results uniq ovl results.length)
      (by omega) hrows3
    refine ⟨by rw [hjoin]; rfl, ?_, ?_⟩
    · rw [hjoin, hext, hexp_eq]
    · rw [hjoin, hext, hexp_eq]
      exact hcount

theorem claim2_merge_exactly_once_witness :
    (join_points
      [[[.tup [5, 0, 0]], [.int 7]], [[.tup [1, 0, 0]], [.int 8]]]
      [[(0, 5), (0, 5), (0, 5)], [(5, 10), (0, 5), (0, 5)]]
      [[(0, 6), (0, 5), (0, 5)], [(4, 10), (0, 5), (0, 5)]]).isOk = true ∧
    joinCoordRows (join_points
      [[[.tup [5, 0, 0]], [.int 7]], [[.tup [1, 0, 0]], [.int 8]]]
      [[(0, 5), (0, 5), (0, 5)], [(5, 10), (0, 5), (0, 5)]]
      [[(0, 6), (0, 5), (0, 5)], [(4, 10), (0, 5), (0, 5)]]) =
      ((List.range 2).flatMap fun i =>
        (globCoords (([[(0, 6), (0, 5), (0, 5)], [(4, 10), (0, 5), (0, 5)]] :
            List Chunk).getD i [])
          (([[[.tup [5, 0, 0]], [.int 7]], [[.tup [1, 0, 0]], [.int 8]]] :
            List ChunkRes).getD i [])).filter
          (maskRow (([[(0, 5), (0, 5), (0, 5)], [(5, 10), (0, 5), (0, 5)]] :
            List Chunk).getD i []))) ∧
    (joinCoordRows (join_points
      [[[.tup [5, 0, 0]], [.int 7]], [[.tup [1, 0, 0]], [.int 8]]]
      [[(0, 5), (0, 5), (0, 5)], [(5, 10), (0, 5), (0, 5)]]
      [[(0, 6), (0, 5), (0, 5)], [(4, 10), (0, 5), (0, 5)]])).count [5, 0, 0] = 1 :=
  claim2_merge_exactly_once
    [[[.tup [5, 0, 0]], [.int 7]], [[.tup [1, 0, 0]], [.int 8]]]
    [[(0, 5), (0, 5), (0, 5)], [(5, 10), (0, 5), (0, 5)]]
    [[(0, 6), (0, 5), (0, 5)], [(4, 10), (0, 5), (0, 5)]]
    1 [5, 0, 0] (by decide) (by decide) (by decide)
    (by decide) (by decide) (by decide)
